import Mathlib

/-
Verification of the budget-spreadsheet pipeline in generate_data.py.

The script parses a fiscal spreadsheet into a tree of budget line items
(nested Python dicts), filters the tree per year, and writes one document per
year.  This file gives a shallow embedding of that code:

* Python strings are Lean String; helpers (pyStrip, pyUpper, ...) model the
  str methods used by the script, working on the underlying character lists.
* Spreadsheet cell values are CellVal (a string, a number, or an empty cell);
  Python floats are modelled as rationals (ℚ).
* A tree node dict is Node; "budget" maps year labels to amounts as an
  association list with unique keys (a Python dict).  Node carries two ghost
  fields, srcIdx and indentG, recording the source-row position and the
  indent level of the row that created the node.  The Python dict has no such
  keys and no function below ever reads them; they exist only so that the
  structural invariants of the builder can be stated.
* A projected per-year document is Doc ("budget" is a single amount there).
* In-place mutation of dicts is rendered functionally; the builder's stack of
  aliased nodes becomes an attach-on-pop stack (a node is appended to its
  parent when it leaves the stack, which yields the same final tree as the
  source's append-on-create with aliasing).
-/

/-! ## Python string helpers -/

/-- Python str.strip(): drop leading and trailing whitespace. -/
def pyStrip (s : String) : String :=
  ⟨(s.data.dropWhile Char.isWhitespace).reverse.dropWhile Char.isWhitespace |>.reverse⟩

/-- Python str.upper(). -/
def pyUpper (s : String) : String := ⟨s.data.map Char.toUpper⟩

/-- Python str.lower(). -/
def pyLower (s : String) : String := ⟨s.data.map Char.toLower⟩

/-- Python "pat in s" (substring containment), on character lists. -/
def strContainsAux (pat : List Char) : List Char → Bool
  | [] => pat.isEmpty
  | c :: rest => pat.isPrefixOf (c :: rest) || strContainsAux pat rest

/-- Python "pat in s" (substring containment). -/
def strContains (s pat : String) : Bool := strContainsAux pat.data s.data

/-- Python s.startswith(pat). -/
def pyStartsWith (s pat : String) : Bool := pat.data.isPrefixOf s.data

/-! ## Spreadsheet cell values -/

/-- Value of a spreadsheet cell as seen through openpyxl: a string, a number
(Python float, modelled as ℚ), or an empty cell (None). -/
inductive CellVal : Type where
  | str (s : String)
  | num (q : ℚ)
  | empty
  deriving DecidableEq

/-- Python truthiness of a cell value: None, "" and 0 are falsy. -/
def pyTruthy : CellVal → Bool
  | .str s => !s.isEmpty
  | .num q => decide (q ≠ 0)
  | .empty => false

/-- Python str() of a float.  Integral floats print as "<n>.0"; the repr of
non-integral floats (shortest round-trip decimal) is approximated by
"num/den", which no year label or year pattern can match, and which no claim
exercises. -/
def floatStr (q : ℚ) : String :=
  if q.den = 1 then toString q.num ++ ".0" else toString q.num ++ "/" ++ toString q.den

/-- Python str() of a cell value (str(None) = "None"). -/
def pyStr : CellVal → String
  | .str s => s
  | .num q => floatStr q
  | .empty => "None"

/-- Value of the digit list as a natural number. -/
def digitsToNat (ds : List Char) : Nat :=
  ds.foldl (fun a c => a * 10 + (c.toNat - Char.toNat '0')) 0

/-- Exponent part of a float literal: optional sign then at least one digit. -/
def parseExpPart (ds : List Char) : Option Int :=
  match ds with
  | '+' :: rest => if !rest.isEmpty && rest.all Char.isDigit then some (digitsToNat rest) else none
  | '-' :: rest => if !rest.isEmpty && rest.all Char.isDigit then some (-(digitsToNat rest : Int)) else none
  | rest => if !rest.isEmpty && rest.all Char.isDigit then some (digitsToNat rest) else none

/-- Unsigned decimal float literal: digits, optional fraction, optional
exponent; at least one digit in the mantissa. -/
def parseUnsigned (ds : List Char) : Option ℚ :=
  let intPart := ds.takeWhile Char.isDigit
  let rest := ds.dropWhile Char.isDigit
  match rest with
  | [] => if intPart.isEmpty then none else some (digitsToNat intPart : ℚ)
  | '.' :: rest2 =>
    let frac := rest2.takeWhile Char.isDigit
    let rest3 := rest2.dropWhile Char.isDigit
    if intPart.isEmpty && frac.isEmpty then none
    else
      let base : ℚ := (digitsToNat intPart : ℚ) + (digitsToNat frac : ℚ) / ((10 : ℚ) ^ frac.length)
      match rest3 with
      | [] => some base
      | e :: rest4 =>
        if e == 'e' || e == 'E' then (parseExpPart rest4).map (fun k => base * (10 : ℚ) ^ k)
        else none
  | e :: rest4 =>
    if (e == 'e' || e == 'E') && !intPart.isEmpty then
      (parseExpPart rest4).map (fun k => (digitsToNat intPart : ℚ) * (10 : ℚ) ^ k)
    else none

/-- Python float() applied to a cell value: numbers pass through, strings are
parsed as decimal float literals (surrounding whitespace allowed), None and
unparsable strings fail (TypeError/ValueError, caught by the caller). -/
def pyFloat : CellVal → Option ℚ
  | .num q => some q
  | .empty => none
  | .str s =>
    match (pyStrip s).data with
    | '+' :: ds => parseUnsigned ds
    | '-' :: ds => (parseUnsigned ds).map Neg.neg
    | ds => parseUnsigned ds

/-! ## should_exclude (generate_data.py lines 16-27) -/

/-- should_exclude(name, unit): the loop over excluded phrases returns True as
soon as a phrase occurs in the name; then the ASL unit check. -/
def shouldExclude (name : String) (unit : Option String) : Bool :=
  strContains name "Total" || strContains name "total" ||
    strContains name "(underlying basis)" ||
    (match unit with
     | some u => pyUpper (pyStrip u) == "ASL"
     | none => false)

/-! ## Tree data model -/

/-- A node dict of the multi-year tree: keys "name", "unit" (absent on the
synthetic root and on the combinator's net node), "budget" (absent when the
row had no usable year cells), "children" (absent only on the net node, which
all readers treat like []).  srcIdx and indentG are ghost fields (see the
header comment). -/
inductive Node : Type where
  | mk (name : String) (unit : Option String) (budget : Option (List (String × ℚ)))
      (children : List Node) (srcIdx : Nat) (indentG : Nat)

/-- A node dict of a projected per-year document: "budget" is a single
amount, "children" is absent iff the list is empty. -/
inductive Doc : Type where
  | mk (name : String) (budget : Option ℚ) (children : List Doc)

def Node.name : Node → String
  | .mk n _ _ _ _ _ => n

def Node.unit : Node → Option String
  | .mk _ u _ _ _ _ => u

def Node.budget : Node → Option (List (String × ℚ))
  | .mk _ _ b _ _ _ => b

def Node.children : Node → List Node
  | .mk _ _ _ cs _ _ => cs

def Node.srcIdx : Node → Nat
  | .mk _ _ _ _ i _ => i

def Node.indentG : Node → Nat
  | .mk _ _ _ _ _ ind => ind

/-- Replace the children list of a node (Python: node["children"] = kids). -/
def Node.withChildren : Node → List Node → Node
  | .mk n u b _ i ind, kids => .mk n u b kids i ind

/-- Append a child (Python: node["children"].append(child)). -/
def appendChild : Node → Node → Node
  | .mk n u b cs i ind, c => .mk n u b (cs ++ [c]) i ind

def Doc.name : Doc → String
  | .mk n _ _ => n

def Doc.budget : Doc → Option ℚ
  | .mk _ b _ => b

def Doc.children : Doc → List Doc
  | .mk _ _ cs => cs

/-- Python "year in budgetDict". -/
def bHas (m : List (String × ℚ)) (year : String) : Bool :=
  m.any (fun p => p.1 == year)

/-- Python budgetDict[year] (callers guard with bHas; dicts have unique keys
so the first match is the entry). -/
def bVal (m : List (String × ℚ)) (year : String) : ℚ :=
  ((m.find? (fun p => p.1 == year)).map (fun p => p.2)).getD 0

/-- Python budgetDict.get(year), as an Option. -/
def bLookup (m : List (String × ℚ)) (year : String) : Option ℚ :=
  (m.find? (fun p => p.1 == year)).map (fun p => p.2)

/-! ## filter_for_year (generate_data.py lines 125-155), on the multi-year
tree that the script passes in -/

/-- Lines 144-154 of filter_for_year, deciding the node's own emitted value
from its budget dict and the surviving children: with a recorded value for
the year, when there are surviving children and all carry an emitted value,
the value is kept only when it differs from the children's sum by more than
1e-6; otherwise it is kept as-is.  ("budget" in node and year in
node["budget"]) is the bHas test; node["budget"][year] is bVal. -/
def newBudgetFor (nodeBudget : Option (List (String × ℚ))) (year : String)
    (children : List Doc) : Option ℚ :=
  match nodeBudget with
  | some m =>
    if bHas m year then
      let parentVal := bVal m year
      if !children.isEmpty && children.all (fun c => c.budget.isSome) then
        let childrenSum := (children.filterMap Doc.budget).sum
        if |parentVal - childrenSum| > 1 / 1000000 then some parentVal else none
      else some parentVal
    else none
  | none => none

mutual

/-- filter_for_year(node, year, unit) on a multi-year tree node.  None means
the node was excluded. -/
def filterForYear : Node → String → Option String → Option Doc
  | .mk nodeName nodeUnit nodeBudget nodeKids _ _, year, unit =>
    -- should_exclude(node["name"], node.get("unit", unit))
    if shouldExclude nodeName (nodeUnit <|> unit) then none
    else
      -- children = [filter_for_year(child, year, child.get("unit", unit)) ...]
      -- children = [c for c in children if c and ("budget" in c or c.get("children"))]
      let children :=
        ((filterKids nodeKids year unit).filterMap id).filter
          (fun c => c.budget.isSome || !c.children.isEmpty)
      some (.mk nodeName (newBudgetFor nodeBudget year children) children)

/-- The list comprehension over node["children"]; each child is filtered with
unit argument child.get("unit", unit). -/
def filterKids : List Node → String → Option String → List (Option Doc)
  | [], _, _ => []
  | c :: rest, year, unit =>
    filterForYear c year (c.unit <|> unit) :: filterKids rest year unit

end

/-- One year's output of export_yearly_yaml: out = filter_for_year(tree, year);
out["name"] = f"Australian Government Budget {year}".  When the filter
returns None the script would crash on the name assignment, hence Option. -/
def exportDocForYear (tree : Node) (year : String) : Option Doc :=
  (filterForYear tree year none).map
    (fun out => .mk ("Australian Government Budget " ++ year) out.budget out.children)

/-! ## filter_for_year applied to an already-projected document.  Python is
untyped, so the same source code runs on a Doc; there "budget" holds a float
and ``year in node["budget"]`` raises TypeError, modelled as Except.error (). -/

mutual

/-- filter_for_year(node, year, unit) where node is a projected document dict:
no "unit" keys anywhere, "budget" a float.  Reaching the
("budget" in node and year in node["budget"]) test with "budget" present
raises TypeError (iteration over a float). -/
def filterForYearDoc : Doc → String → Option String → Except Unit (Option Doc)
  | .mk nodeName nodeBudget nodeKids, year, unit =>
    -- node.get("unit", unit) is unit: a document node has no "unit" key
    if shouldExclude nodeName unit then .ok none
    else
      match filterDocKids nodeKids year unit with
      | .error e => .error e
      | .ok kids =>
        let children :=
          (kids.filterMap id).filter (fun c => c.budget.isSome || !c.children.isEmpty)
        match nodeBudget with
        | some _ => .error ()  -- year in <float> : TypeError
        | none => .ok (some (.mk nodeName none children))

/-- The children comprehension on a document: the first TypeError propagates. -/
def filterDocKids : List Doc → String → Option String → Except Unit (List (Option Doc))
  | [], _, _ => .ok []
  | c :: rest, year, unit =>
    match filterForYearDoc c year unit with
    | .error e => .error e
    | .ok d =>
      match filterDocKids rest year unit with
      | .error e => .error e
      | .ok ds => .ok (d :: ds)

end

/-! ## combine_net_income_tax (generate_data.py lines 237-274) -/

/-- Enumerate a list with indices starting at i (Python enumerate). -/
def idxed {α : Type} : Nat → List α → List (Nat × α)
  | _, [] => []
  | i, x :: xs => (i, x) :: idxed (i + 1) xs

/-- node.get("budget", {}).get(y, 0). -/
def bGetD (n : Node) (y : String) : ℚ :=
  (bLookup (n.budget.getD []) y).getD 0

/-- The scan over child["children"]: for idx, sub in enumerate(...): the last
sub named "Gross income tax withholding" and the last named "Individuals
refunds", with their indices (assignments overwrite, no break). -/
def scanGR : List Node → Nat → Option (Nat × Node) → Option (Nat × Node) →
    Option (Nat × Node) × Option (Nat × Node)
  | [], _, g, r => (g, r)
  | sub :: rest, i, g, r =>
    if sub.name == "Gross income tax withholding" then
      scanGR rest (i + 1) (some (i, sub)) r
    else if sub.name == "Individuals refunds" then
      scanGR rest (i + 1) g (some (i, sub))
    else scanGR rest (i + 1) g r

/-- The net node {"name": "Net income tax", "budget": net_budgets}: for each
year, gross + refunds with missing values read as 0.  It has no "unit" and no
"children" key; the ghost fields are set to 0. -/
def netNode (years : List String) (g r : Node) : Node :=
  .mk "Net income tax" none (some (years.map (fun y => (y, bGetD g y + bGetD r y)))) [] 0 0

/-- The body of the second loop of combine_net_income_tax for one child: if it
is the withholding-taxes node with children and both special sub-nodes are
found, drop them (by index) and append the net node. -/
def stepOne (years : List String) (child : Node) : Node :=
  if child.name == "Individuals and other withholding taxes" && !child.children.isEmpty then
    match scanGR child.children 0 none none with
    | (some gp, some rp) =>
      child.withChildren
        (((idxed 0 child.children).filter
            (fun p => p.1 != gp.1 && p.1 != rp.1)).map Prod.snd ++ [netNode years gp.2 rp.2])
    | _ => child
  else child

mutual

/-- combine_net_income_tax(node): recurse into every child first, then apply
the special-case rewrite to each (already recursed) child. -/
def combineNetIncomeTax (years : List String) : Node → Node
  | .mk nm u b cs i ind =>
    .mk nm u b ((combineKids years cs).map (stepOne years)) i ind

/-- The first loop: for child in node["children"]: combine_net_income_tax(child). -/
def combineKids (years : List String) : List Node → List Node
  | [] => []
  | c :: rest => combineNetIncomeTax years c :: combineKids years rest

end

/-! ## build_budget_tree_from_excel (generate_data.py lines 39-113)

A sheet is a list of rows; a row is its list of cell values plus the resolved
indent level of its first cell (cell.alignment.indent with falsy values read
as 0 — alignment parsing itself is the spreadsheet library's job).  openpyxl
pads every row of a sheet to a common width, so cells beyond the stored list
are modelled as empty by getD.  Python's 1-based ws[i]/min_row against the
0-based enumerate index is rendered with 0-based list indexing throughout:
ws[header_row_idx + 1] is row header_row_idx, and iter_rows(min_row =
header_row_idx + 1) starts at row header_row_idx — the header row itself. -/

/-- One spreadsheet row: cell values and the indent of its first cell. -/
structure SheetRow where
  cells : List CellVal
  indent : Nat
  deriving DecidableEq

/-- The year pattern of line 53, regex ^\d{4}-\d{2,4}$ : four digits, a
hyphen, then two to four digits. -/
def yearPatChars : List Char → Bool
  | a :: b :: c :: d :: '-' :: rest =>
    a.isDigit && b.isDigit && c.isDigit && d.isDigit && rest.all Char.isDigit &&
      decide (2 ≤ rest.length) && decide (rest.length ≤ 4)
  | _ => false

/-- A header-candidate cell (line 57): val is truthy and
year_pattern.match(str(val).strip()) succeeds. -/
def isYearCell (v : CellVal) : Bool :=
  pyTruthy v && yearPatChars (pyStrip (pyStr v)).data

/-- A row qualifies as the header row when more than 3 cells match. -/
def isHeaderRowB (r : SheetRow) : Bool :=
  decide (3 < r.cells.countP isYearCell)

/-- The enumerate-and-break loop of lines 56-59, index threaded through. -/
def findHeaderAux (p : SheetRow → Bool) : Nat → List SheetRow → Option Nat
  | _, [] => none
  | i, r :: rest => if p r then some i else findHeaderAux p (i + 1) rest

/-- header_row_idx: first row among the first 20 with more than 3 year cells. -/
def findHeaderIdx (sheet : List SheetRow) : Option Nat :=
  findHeaderAux isHeaderRowB 0 (sheet.take 20)

/-- The loop of lines 67-70 appending the index of every header cell whose
stripped string form (or "" when falsy) is in the years list. -/
def yearColsAux (years : List String) : Nat → List CellVal → List Nat
  | _, [] => []
  | j, v :: vs =>
    let sval := if pyTruthy v then pyStrip (pyStr v) else ""
    if years.contains sval then j :: yearColsAux years (j + 1) vs
    else yearColsAux years (j + 1) vs

/-- year_col_indices for a header row. -/
def yearCols (headers : List CellVal) (years : List String) : List Nat :=
  yearColsAux years 0 headers

/-- The unit_multipliers table of lines 87-92. -/
def unitMultipliers : List (String × ℚ) :=
  [("$t", 1000000000000), ("$m", 1000000), ("$b", 1000000000), ("$k", 1000)]

/-- unit_multipliers.get(unit, 1). -/
def multOf (unit : String) : ℚ :=
  ((unitMultipliers.find? (fun p => p.1 == unit)).map (fun p => p.2)).getD 1

/-- Python dict assignment budgets[y] = v: overwrite in place if the key
exists, else append. -/
def dictInsert (m : List (String × ℚ)) (k : String) (v : ℚ) : List (String × ℚ) :=
  if m.any (fun p => p.1 == k) then m.map (fun p => if p.1 == k then (k, v) else p)
  else m ++ [(k, v)]

/-- One iteration of the budgets loop of lines 94-101 for the pair
iy = (idx, y): read row[idx] (None when out of range), skip None, try
float(val) and store float(val) * multiplier, silently dropping coercion
failures. -/
def budgetStep (cells : List CellVal) (mult : ℚ) (m : List (String × ℚ))
    (iy : Nat × String) : List (String × ℚ) :=
  let val := cells.getD iy.1 .empty
  if val = .empty then m
  else
    match pyFloat val with
    | some q => dictInsert m iy.2 (q * mult)
    | none => m

/-- The budgets loop: fold over zip(year_col_indices, years). -/
def mkBudgets (cols : List Nat) (years : List String) (cells : List CellVal) (mult : ℚ) :
    List (String × ℚ) :=
  (cols.zip years).foldl (budgetStep cells mult) []

/-- The data extracted from one kept row before it is attached to the tree. -/
structure RowData where
  name : String
  unit : String
  indent : Nat
  budgets : List (String × ℚ)
  deriving DecidableEq

/-- Lines 76-104 for one row: skip when the first cell is None or its
stripped, lowered string starts with "nan"; name and unit from cells 0 and 1
("$m" when the unit cell is falsy); skip excluded rows; otherwise collect the
scaled budgets. -/
def rowEntry (years : List String) (cols : List Nat) (r : SheetRow) : Option RowData :=
  let v := r.cells.getD 0 .empty
  if v = .empty then none
  else if pyStartsWith (pyLower (pyStrip (pyStr v))) "nan" then none
  else
    let name := pyStrip (pyStr v)
    let uv := r.cells.getD 1 .empty
    let unit := if pyTruthy uv then pyStrip (pyStr uv) else "$m"
    if shouldExclude name (some unit) then none
    else some ⟨name, unit, r.indent, mkBudgets cols years r.cells (multOf unit)⟩

/-- The node dict built for a row (lines 102-105): "budget" only when
budgets is non-empty; children start empty.  Ghost fields record the row's
position and indent. -/
def rowNode (idx : Nat) (r : RowData) : Node :=
  .mk r.name (some r.unit) (if r.budgets.isEmpty then none else some r.budgets) [] idx r.indent

/-- The builder's stack: (indent, node under construction), top first. -/
abbrev BStack := List (Nat × Node)

/-- Pop the stack while its top's indent is ≥ ind (line 106), attaching each
popped node to the node below it, or to the root accumulator when nothing is
below (lines 108-111, rendered attach-on-pop).  pending is the node popped so
far. -/
def popCascade (ind : Nat) (pending : Node) : BStack → List Node → BStack × List Node
  | [], acc => ([], acc ++ [pending])
  | (j, p) :: rest, acc =>
    if ind ≤ j then popCascade ind (appendChild p pending) rest acc
    else ((j, appendChild p pending) :: rest, acc)

/-- The while loop of lines 106-107 with the attach of lines 108-111. -/
def popAttach (ind : Nat) : BStack → List Node → BStack × List Node
  | [], acc => ([], acc)
  | (i, n) :: rest, acc =>
    if ind ≤ i then popCascade ind n rest acc else ((i, n) :: rest, acc)

/-- One iteration of the row loop for a kept row: pop-and-attach, then push
the new node (line 112). -/
def stepRow (st : BStack × List Node) (e : Nat × RowData) : BStack × List Node :=
  let sa := popAttach e.2.indent st.1 st.2
  ((e.2.indent, rowNode e.1 e.2) :: sa.1, sa.2)

/-- End of the loop: the nodes still on the stack are already wired into the
tree in the source; attach-on-pop realises that by collapsing the stack. -/
def collapse : BStack → List Node → List Node
  | [], acc => acc
  | (_, n) :: rest, acc => (popCascade 0 n rest acc).2

/-- The kept rows of the data region with their 0-based row offsets. -/
def dataEntries (years : List String) (cols : List Nat) (rows : List SheetRow) :
    List (Nat × RowData) :=
  (idxed 0 rows).filterMap (fun p => (rowEntry years cols p.2).map (fun e => (p.1, e)))

/-- build_budget_tree_from_excel: find the header row in the first 20 rows
(none → RuntimeError, line 61), read year_col_indices from it, then fold the
row loop over the rows from the header row on (min_row = header_row_idx + 1,
i.e. 0-based index header_row_idx) under the synthetic root. -/
def buildFromSheet (sheet : List SheetRow) (years : List String) : Option Node :=
  match findHeaderIdx sheet with
  | none => none
  | some h =>
    let headers := (sheet.getD h ⟨[], 0⟩).cells
    let cols := yearCols headers years
    let entries := dataEntries years cols (sheet.drop h)
    let sa := entries.foldl stepRow ([], [])
    some (.mk "Australian Government Budget" none none (collapse sa.1 sa.2) 0 0)

/-! ## Structural predicates (for the invariants of C2, C4, C9) -/

/-- f strictly increases along the list. -/
def chainLt (f : Node → Nat) : List Node → Bool
  | [] => true
  | [_] => true
  | a :: b :: rest => decide (f a < f b) && chainLt f (b :: rest)

mutual

/-- Every child's indent exceeds its parent's and children are in source-row
order, recursively. -/
def shapeOk : Node → Bool
  | .mk _ _ _ cs _ ind => shapeKids ind cs && chainLt Node.srcIdx cs

/-- Children of a node with indent pInd: each deeper than pInd and itself
well-shaped. -/
def shapeKids (pInd : Nat) : List Node → Bool
  | [] => true
  | c :: rest => decide (pInd < c.indentG) && shapeOk c && shapeKids pInd rest

end

mutual

/-- All srcIdx ghosts in the subtree are < k. -/
def subLtB : Node → Nat → Bool
  | .mk _ _ _ cs i _, k => decide (i < k) && subKidsLtB cs k

/-- List form of subLtB. -/
def subKidsLtB : List Node → Nat → Bool
  | [], _ => true
  | c :: rest, k => subLtB c k && subKidsLtB rest k

end

mutual

/-- The output-document invariant: a node has a budget or a surviving child,
recursively. -/
def docGood : Doc → Bool
  | .mk _ b cs => (b.isSome || !cs.isEmpty) && docKidsGood cs

/-- List form of docGood. -/
def docKidsGood : List Doc → Bool
  | [] => true
  | c :: rest => docGood c && docKidsGood rest

end

mutual

/-- Some node of the document (the root included) carries a budget value. -/
def hasBudgetB : Doc → Bool
  | .mk _ b cs => b.isSome || kidsHaveBudget cs

/-- List form of hasBudgetB. -/
def kidsHaveBudget : List Doc → Bool
  | [] => false
  | c :: rest => hasBudgetB c || kidsHaveBudget rest

end

mutual

/-- No node of the document is excluded by the name rules (its unit-free
should_exclude test). -/
def docNamesOkB : Doc → Bool
  | .mk nm _ cs => !shouldExclude nm none && kidsNamesOkB cs

/-- List form of docNamesOkB. -/
def kidsNamesOkB : List Doc → Bool
  | [] => true
  | c :: rest => docNamesOkB c && kidsNamesOkB rest

end

/-! ## Basic lemmas about the model -/

theorem nodeStrongInd (P : Node → Prop)
    (h : ∀ nm u b cs i ind, (∀ c ∈ cs, P c) → P (Node.mk nm u b cs i ind)) :
    ∀ n, P n := by
  have key : ∀ k n, sizeOf n ≤ k → P n := by
    intro k
    induction k with
    | zero =>
      intro n hn
      cases n with
      | mk nm u b cs i ind => simp [Node.mk.sizeOf_spec] at hn
    | succ k ih =>
      intro n hn
      cases n with
      | mk nm u b cs i ind =>
        refine h nm u b cs i ind (fun c hc => ih c ?_)
        have h1 : sizeOf c < sizeOf cs := List.sizeOf_lt_of_mem hc
        have h2 : sizeOf cs < sizeOf (Node.mk nm u b cs i ind) := by
          simp [Node.mk.sizeOf_spec]; omega
        omega
  intro n
  exact key (sizeOf n) n le_rfl

theorem docStrongInd (P : Doc → Prop)
    (h : ∀ nm b cs, (∀ c ∈ cs, P c) → P (Doc.mk nm b cs)) :
    ∀ d, P d := by
  have key : ∀ k d, sizeOf d ≤ k → P d := by
    intro k
    induction k with
    | zero =>
      intro d hd
      cases d with
      | mk nm b cs => simp [Doc.mk.sizeOf_spec] at hd
    | succ k ih =>
      intro d hd
      cases d with
      | mk nm b cs =>
        refine h nm b cs (fun c hc => ih c ?_)
        have h1 : sizeOf c < sizeOf cs := List.sizeOf_lt_of_mem hc
        have h2 : sizeOf cs < sizeOf (Doc.mk nm b cs) := by
          simp [Doc.mk.sizeOf_spec]
        omega
  intro d
  exact key (sizeOf d) d le_rfl

theorem shapeKids_iff (pInd : Nat) (cs : List Node) :
    shapeKids pInd cs = true ↔ ∀ c ∈ cs, pInd < c.indentG ∧ shapeOk c = true := by
  induction cs with
  | nil => simp [shapeKids]
  | cons c rest ih => simp [shapeKids, ih]

theorem subKidsLtB_iff (cs : List Node) (k : Nat) :
    subKidsLtB cs k = true ↔ ∀ c ∈ cs, subLtB c k = true := by
  induction cs with
  | nil => simp [subKidsLtB]
  | cons c rest ih => simp [subKidsLtB, ih]

theorem docKidsGood_iff (cs : List Doc) :
    docKidsGood cs = true ↔ ∀ c ∈ cs, docGood c = true := by
  induction cs with
  | nil => simp [docKidsGood]
  | cons c rest ih => simp [docKidsGood, ih]

theorem kidsHaveBudget_iff (cs : List Doc) :
    kidsHaveBudget cs = true ↔ ∃ c ∈ cs, hasBudgetB c = true := by
  induction cs with
  | nil => simp [kidsHaveBudget]
  | cons c rest ih => simp [kidsHaveBudget, ih]

theorem kidsNamesOkB_iff (cs : List Doc) :
    kidsNamesOkB cs = true ↔ ∀ c ∈ cs, docNamesOkB c = true := by
  induction cs with
  | nil => simp [kidsNamesOkB]
  | cons c rest ih => simp [kidsNamesOkB, ih]

theorem subLtB_srcIdx {n : Node} {k : Nat} (h : subLtB n k = true) : n.srcIdx < k := by
  cases n with
  | mk nm u b cs i ind =>
    simp [subLtB] at h
    simpa [Node.srcIdx] using h.1


/-! ## C3: the exclusion filter -/

/-- Predicate formed from the claim's wording for C3 (refinement comparison):
name contains "Total" (case-sensitive) or "(underlying basis)", or the unit,
trimmed and upper-cased, is "ASL".  The source additionally matches the
lower-case phrase "total". -/
def claimedC3Excluded (name : String) (unit : Option String) : Bool :=
  strContains name "Total" || strContains name "(underlying basis)" ||
    (match unit with
     | some u => pyUpper (pyStrip u) == "ASL"
     | none => false)

/-- C3 counterexample: "total receipts" contains the lower-case phrase
"total" but not "Total" nor "(underlying basis)" and has no unit, so
should_exclude returns True while the claimed characterization says False. -/
theorem C3_counterexample :
    shouldExclude "total receipts" none = true ∧
      claimedC3Excluded "total receipts" none = false := by
  decide

/-- C3 (amended): should_exclude(name, unit) is True exactly when the name
contains "Total" or contains "total" (both case-sensitive substring matches)
or contains "(underlying basis)", or the unit is present and, stripped and
upper-cased, equals "ASL". -/
theorem C3_exclusion_characterization (name : String) (unit : Option String) :
    shouldExclude name unit = true ↔
      (strContains name "Total" = true ∨ strContains name "total" = true ∨
        strContains name "(underlying basis)" = true ∨
        ∃ u, unit = some u ∧ pyUpper (pyStrip u) = "ASL") := by
  cases unit <;> simp [shouldExclude] <;> tauto

/-! ## C1: redundancy elimination in filter_for_year -/

theorem newBudgetFor_spec (m : List (String × ℚ)) (year : String) (ks : List Doc) (v : ℚ)
    (hhas : bHas m year = true) (hval : bVal m year = v) (hne : ks ≠ [])
    (hall : ks.all (fun c => c.budget.isSome) = true) :
    newBudgetFor (some m) year ks =
      if |v - (ks.filterMap Doc.budget).sum| ≤ 1 / 1000000 then none else some v := by
  subst hval
  have hke : ks.isEmpty = false := by
    cases ks with
    | nil => exact absurd rfl hne
    | cons a rest => rfl
  simp only [newBudgetFor, hhas, if_true, hke, hall, Bool.not_false, Bool.and_self]
  by_cases hc : |bVal m year - (ks.filterMap Doc.budget).sum| ≤ 1 / 1000000
  · rw [if_pos hc, if_neg (not_lt.mpr hc)]
  · rw [if_neg hc, if_pos (lt_of_not_le hc)]

/-- C1: whenever filter_for_year keeps a node that has a recorded value v for
the year, has at least one surviving child, and all surviving children carry
an emitted value, the node's own value is suppressed exactly when v is within
1e-6 of the sum of the surviving children's emitted values, and is emitted
otherwise; in particular the parent 100 with children 60 and 40 emits no
budget and the parent 100 with children 60 and 30 emits 100. -/
theorem C1_redundancy_suppression :
    (∀ n year unit d m v, filterForYear n year unit = some d →
        n.budget = some m → bHas m year = true → bVal m year = v →
        d.children ≠ [] → d.children.all (fun c => c.budget.isSome) = true →
        d.budget = if |v - (d.children.filterMap Doc.budget).sum| ≤ 1 / 1000000
          then none else some v) ∧
    filterForYear (Node.mk "P" (some "$m") (some [("Y", 100)])
        [Node.mk "A" (some "$m") (some [("Y", 60)]) [] 0 0,
         Node.mk "B" (some "$m") (some [("Y", 40)]) [] 0 0] 0 0) "Y" none =
      some (Doc.mk "P" none [Doc.mk "A" (some 60) [], Doc.mk "B" (some 40) []]) ∧
    filterForYear (Node.mk "P" (some "$m") (some [("Y", 100)])
        [Node.mk "A" (some "$m") (some [("Y", 60)]) [] 0 0,
         Node.mk "B" (some "$m") (some [("Y", 30)]) [] 0 0] 0 0) "Y" none =
      some (Doc.mk "P" (some 100) [Doc.mk "A" (some 60) [], Doc.mk "B" (some 30) []]) := by
  refine ⟨?_, ?_, ?_⟩
  · intro n year unit d m v hf hb hhas hval hne hall
    cases n with
    | mk nm nu nb cs i ind =>
      simp only [Node.budget] at hb
      subst hb
      simp only [filterForYear] at hf
      split at hf
      · simp at hf
      · cases hf
        exact newBudgetFor_spec m year _ v hhas hval hne hall
  · norm_num +decide [filterForYear, filterKids, newBudgetFor, bHas, bVal, Node.unit,
      Doc.budget, Doc.children, List.find?, List.filterMap, List.filter]
  · norm_num +decide [filterForYear, filterKids, newBudgetFor, bHas, bVal, Node.unit,
      Doc.budget, Doc.children, List.find?, List.filterMap, List.filter]

/-- C1 witness: the general statement applied to the 60/40 example. -/
theorem C1_witness :
    filterForYear (Node.mk "P" (some "$m") (some [("Y", 100)])
        [Node.mk "A" (some "$m") (some [("Y", 60)]) [] 0 0,
         Node.mk "B" (some "$m") (some [("Y", 40)]) [] 0 0] 0 0) "Y" none =
      some (Doc.mk "P" none [Doc.mk "A" (some 60) [], Doc.mk "B" (some 40) []]) ∧
    (Doc.mk "P" none [Doc.mk "A" (some 60) [], Doc.mk "B" (some 40) []]).budget =
      if |(100 : ℚ) -
          ((Doc.mk "P" none [Doc.mk "A" (some 60) [], Doc.mk "B" (some 40) []]).children.filterMap
            Doc.budget).sum| ≤ 1 / 1000000
        then none else some 100 := by
  have hf := C1_redundancy_suppression.2.1
  refine ⟨hf, ?_⟩
  exact C1_redundancy_suppression.1 _ "Y" none _ [("Y", 100)] 100 hf rfl rfl rfl
    (by simp [Doc.children]) rfl

/-! ## C4: output document invariant and root handling -/

theorem filterKids_eq_map (cs : List Node) (year : String) (unit : Option String) :
    filterKids cs year unit = cs.map (fun c => filterForYear c year (c.unit <|> unit)) := by
  induction cs with
  | nil => rfl
  | cons c rest ih => simp [filterKids, ih]

/-- Survivors of the child filter and their descendants all satisfy the
budget-or-children invariant. -/
theorem filterOut_kidsGood :
    ∀ n, ∀ year unit d, filterForYear n year unit = some d →
      ∀ c ∈ d.children, docGood c = true := by
  refine nodeStrongInd _ ?_
  intro nm u b cs i ind ih year unit d hf c hc
  simp only [filterForYear] at hf
  split at hf
  · simp at hf
  · cases hf
    simp only [Doc.children] at hc
    rw [List.mem_filter] at hc
    obtain ⟨hmem, hpred⟩ := hc
    rw [List.mem_filterMap] at hmem
    obtain ⟨o, ho, hoc⟩ := hmem
    rw [filterKids_eq_map, List.mem_map] at ho
    obtain ⟨child, hchild, hfc⟩ := ho
    cases o with
    | none => simp at hoc
    | some c2 =>
      simp only [id] at hoc
      cases hoc
      have hkids := ih child hchild year (child.unit <|> unit) c hfc
      cases c with
      | mk cn cb cc =>
        simp only [docGood]
        rw [Bool.and_eq_true]
        refine ⟨?_, ?_⟩
        · simpa [Doc.budget, Doc.children] using hpred
        · exact (docKidsGood_iff cc).mpr (by simpa [Doc.children] using hkids)

/-- Name-based exclusion never fires on a filter survivor, even with no unit
in scope. -/
theorem shouldExclude_none_of_false {nm : String} {u : Option String}
    (h : shouldExclude nm u = false) : shouldExclude nm none = false := by
  simp only [shouldExclude, Bool.or_eq_false_iff] at h ⊢
  exact ⟨h.1, trivial⟩

/-- Every node of a projected document passes the unit-free exclusion test. -/
theorem filterOut_namesOk :
    ∀ n, ∀ year unit d, filterForYear n year unit = some d → docNamesOkB d = true := by
  refine nodeStrongInd _ ?_
  intro nm u b cs i ind ih year unit d hf
  simp only [filterForYear] at hf
  split at hf
  · simp at hf
  · rename_i hex
    cases hf
    simp only [docNamesOkB]
    rw [Bool.and_eq_true]
    refine ⟨?_, ?_⟩
    · simp [shouldExclude_none_of_false (Bool.of_not_eq_true hex)]
    · rw [kidsNamesOkB_iff]
      intro c hc
      rw [List.mem_filter] at hc
      obtain ⟨hmem, _⟩ := hc
      rw [List.mem_filterMap] at hmem
      obtain ⟨o, ho, hoc⟩ := hmem
      rw [filterKids_eq_map, List.mem_map] at ho
      obtain ⟨child, hchild, hfc⟩ := ho
      cases o with
      | none => simp at hoc
      | some c2 =>
        simp only [id] at hoc
        cases hoc
        exact ih child hchild year (child.unit <|> unit) c hfc

/-- C4: for a tree whose root is the synthetic root (name "Australian
Government Budget", no unit — whether or not it records a value of its own),
export produces a document for every year; its root is renamed to the
original root name followed by a space and the year, and every non-root node
has an emitted budget or a surviving child, recursively. -/
theorem C4_output_invariant :
    ∀ tree year, tree.name = "Australian Government Budget" → tree.unit = none →
      ∃ d, exportDocForYear tree year = some d ∧
        d.name = tree.name ++ " " ++ year ∧
        ∀ c ∈ d.children, docGood c = true := by
  intro tree year hname hunit
  cases tree with
  | mk nm u b cs i ind =>
    simp only [Node.name] at hname
    simp only [Node.unit] at hunit
    subst hname
    subst hunit
    have hnx : shouldExclude "Australian Government Budget" none = false := by decide
    rcases hfe : filterForYear (Node.mk "Australian Government Budget" none b cs i ind) year none
      with _ | d0
    · rw [filterForYear, if_neg (by simp [hnx])] at hfe
      simp at hfe
    · refine ⟨Doc.mk ("Australian Government Budget " ++ year) d0.budget d0.children,
        by simp [exportDocForYear, hfe], ?_, ?_⟩
      · simp only [Doc.name, Node.name]
        rw [show "Australian Government Budget" ++ " " ++ year =
          "Australian Government Budget " ++ year from rfl]
      · intro c hc
        simp only [Doc.children] at hc
        exact filterOut_kidsGood _ year none d0 hfe c hc

/-- C4 witness: the invariant at a concrete synthetic-root tree. -/
theorem C4_witness :
    ∃ d, exportDocForYear (Node.mk "Australian Government Budget" none (some [("Y", 1)])
        [Node.mk "Hospitals" (some "$m") (some [("Y", 5)]) [] 0 0,
         Node.mk "Empty group" (some "$m") none [] 1 0] 0 0) "Y" = some d ∧
      d.name = (Node.mk "Australian Government Budget" none (some [("Y", 1)])
        [Node.mk "Hospitals" (some "$m") (some [("Y", 5)]) [] 0 0,
         Node.mk "Empty group" (some "$m") none [] 1 0] 0 0).name ++ " " ++ "Y" ∧
      ∀ c ∈ d.children, docGood c = true :=
  C4_output_invariant _ "Y" rfl rfl

/-! ## C9: re-filtering a projected document -/

/-- When the comprehension over a document's children succeeds, each child's
own filter call succeeded. -/
theorem filterDocKids_ok_mem {cs : List Doc} {year : String} {unit : Option String}
    {kids : List (Option Doc)} (h : filterDocKids cs year unit = .ok kids) :
    ∀ c ∈ cs, ∃ o, filterForYearDoc c year unit = .ok o := by
  induction cs generalizing kids with
  | nil => simp
  | cons c rest ih =>
    intro x hx
    rw [filterDocKids] at h
    rcases hc : filterForYearDoc c year unit with e | o
    · rw [hc] at h; simp at h
    · rw [hc] at h
      rcases hr : filterDocKids rest year unit with e | os
      · rw [hr] at h; simp at h
      · rcases List.mem_cons.mp hx with rfl | hx2
        · exact ⟨o, hc⟩
        · exact ih hr x hx2

/-- Re-filtering a document whose names all pass the exclusion test raises
TypeError as soon as any node carries a budget value. -/
theorem refilter_error_of_hasBudget :
    ∀ d, ∀ year, docNamesOkB d = true → hasBudgetB d = true →
      filterForYearDoc d year none = .error () := by
  refine docStrongInd _ ?_
  intro nm b cs ih year hnames hbud
  simp only [docNamesOkB, Bool.and_eq_true] at hnames
  obtain ⟨hnm, hkidsnm⟩ := hnames
  have hnm2 : shouldExclude nm none = false := by
    cases h : shouldExclude nm none
    · rfl
    · rw [h] at hnm; simp at hnm
  rw [filterForYearDoc, if_neg (by simp [hnm2])]
  rcases hk : filterDocKids cs year none with e | kids
  · cases e; rfl
  · cases b with
    | some q => rfl
    | none =>
      simp only [hasBudgetB, Option.isSome_none, Bool.false_or] at hbud
      obtain ⟨c, hc, hcb⟩ := (kidsHaveBudget_iff cs).mp hbud
      have herr := ih c hc year ((kidsNamesOkB_iff cs).mp hkidsnm c hc) hcb
      obtain ⟨o, ho⟩ := filterDocKids_ok_mem hk c hc
      rw [herr] at ho
      simp at ho

/-- A document all of whose children satisfy the budget-or-children
invariant and which contains no budget value at all has no children. -/
theorem noBudget_children_empty :
    ∀ d, (∀ c ∈ d.children, docGood c = true) → hasBudgetB d = false →
      d.children = [] := by
  refine docStrongInd _ ?_
  intro nm b cs ih hgood hnob
  simp only [hasBudgetB, Bool.or_eq_false_iff] at hnob
  obtain ⟨-, hkids⟩ := hnob
  simp only [Doc.children] at hgood ⊢
  cases cs with
  | nil => rfl
  | cons c rest =>
    exfalso
    have hg := hgood c (List.mem_cons_self c rest)
    have hnb : hasBudgetB c = false := by
      cases h : hasBudgetB c
      · rfl
      · rw [kidsHaveBudget, h] at hkids; simp at hkids
    cases c with
    | mk cn cb cc =>
      simp only [docGood, Bool.and_eq_true] at hg
      have hcc : cc = [] := by
        refine ih _ (List.mem_cons_self _ rest) ?_ hnb
        intro x hx
        exact (docKidsGood_iff cc).mp hg.2 x (by simpa [Doc.children] using hx)
      have hcb : cb = none := by
        simp only [hasBudgetB, Bool.or_eq_false_iff] at hnb
        cases cb
        · rfl
        · simp at hnb
      rw [hcc, hcb] at hg
      simp [Doc.budget, Doc.children] at hg

/-- C9 counterexample input: a root with one valued child. -/
def treeC9 : Node :=
  Node.mk "R" none none [Node.mk "A" (some "$m") (some [("Y", 5)]) [] 0 0] 0 0

/-- The document exported from treeC9 for year "Y". -/
def docC9 : Doc :=
  Doc.mk "Australian Government Budget Y" none [Doc.mk "A" (some 5) []]

/-- C9 counterexample: projecting treeC9 for "Y" gives docC9; running
filter_for_year on docC9 again does not return docC9 (or any document) — it
raises TypeError at the child that carries budget 5, because ``"Y" in 5.0``
iterates a float. -/
theorem C9_counterexample :
    exportDocForYear treeC9 "Y" = some docC9 ∧
      filterForYearDoc docC9 "Y" none = .error () ∧
      filterForYearDoc docC9 "Y" none ≠ .ok (some docC9) := by
  refine ⟨by rfl, by rfl, ?_⟩
  intro h
  rw [show filterForYearDoc docC9 "Y" none = .error () from rfl] at h
  simp at h

/-- C9 (amended): re-running filter_for_year on an exported yearly document
raises TypeError whenever the document contains any emitted budget value
(which every non-trivial projection does); only in the degenerate case of a
document with no budget values at all — necessarily a childless renamed root
— does re-filtering return the identical document.  The renamed root is
assumed to pass the name-exclusion test, as the fixed prefix "Australian
Government Budget " guarantees for any year label free of excluded
phrases. -/
theorem C9_refilter_behavior :
    ∀ tree year d2, exportDocForYear tree year = some d2 →
      shouldExclude d2.name none = false →
      (hasBudgetB d2 = true → filterForYearDoc d2 year none = .error ()) ∧
      (hasBudgetB d2 = false → filterForYearDoc d2 year none = .ok (some d2)) := by
  intro tree year d2 hx hnm
  simp only [exportDocForYear] at hx
  rcases hf : filterForYear tree year none with _ | d0
  · rw [hf] at hx; simp at hx
  · rw [hf] at hx
    rw [Option.map_some'] at hx
    have hx := Option.some.inj hx
    have hkidsgood : ∀ c ∈ d2.children, docGood c = true := by
      intro c hc
      refine filterOut_kidsGood tree year none d0 hf c ?_
      rw [← hx] at hc
      simpa [Doc.children] using hc
    have hnames : docNamesOkB d2 = true := by
      have h0 := filterOut_namesOk tree year none d0 hf
      rw [← hx]
      cases d0 with
      | mk n0 b0 c0 =>
        simp only [docNamesOkB, Bool.and_eq_true, Doc.budget, Doc.children] at h0 ⊢
        refine ⟨?_, h0.2⟩
        rw [← hx] at hnm
        simpa [Doc.name] using hnm
    refine ⟨fun hb => refilter_error_of_hasBudget d2 year hnames hb, fun hb => ?_⟩
    have hempty : d2.children = [] := noBudget_children_empty d2 hkidsgood hb
    cases d2 with
    | mk n2 b2 c2 =>
      simp only [Doc.children] at hempty
      subst hempty
      have hb2 : b2 = none := by
        simp only [hasBudgetB, Bool.or_eq_false_iff] at hb
        cases b2
        · rfl
        · simp at hb
      subst hb2
      rw [filterForYearDoc, if_neg (by simpa [Doc.name] using hnm)]
      rfl

/-- C9 witness: the amended behavior at the counterexample document. -/
theorem C9_witness :
    (hasBudgetB docC9 = true → filterForYearDoc docC9 "Y" none = .error ()) ∧
    (hasBudgetB docC9 = false → filterForYearDoc docC9 "Y" none = .ok (some docC9)) :=
  C9_refilter_behavior treeC9 "Y" docC9 (by rfl) (by decide)

/-! ## C5: the net income tax combinator -/

theorem idxed_append {α : Type} (i : Nat) (l1 l2 : List α) :
    idxed i (l1 ++ l2) = idxed i l1 ++ idxed (i + l1.length) l2 := by
  induction l1 generalizing i with
  | nil => simp [idxed]
  | cons x xs ih =>
    simp only [List.cons_append, idxed, List.length_cons, List.append_eq]
    rw [show i + (xs.length + 1) = i + 1 + xs.length from by omega, ih]

theorem idxed_map_snd {α : Type} (i : Nat) (l : List α) :
    (idxed i l).map Prod.snd = l := by
  induction l generalizing i with
  | nil => rfl
  | cons x xs ih => simp [idxed, ih]

theorem idxed_mem_bounds {α : Type} {p : Nat × α} :
    ∀ {i : Nat} {l : List α}, p ∈ idxed i l → i ≤ p.1 ∧ p.1 < i + l.length := by
  intro i l
  induction l generalizing i with
  | nil => simp [idxed]
  | cons x xs ih =>
    intro hp
    rcases List.mem_cons.mp hp with rfl | hp2
    · simp
    · have := ih hp2
      simp only [List.length_cons]
      omega

theorem scanGR_skip (l : List Node) :
    ∀ (rest : List Node) (i : Nat) g0 r0,
      (∀ s ∈ l, s.name ≠ "Gross income tax withholding" ∧ s.name ≠ "Individuals refunds") →
      scanGR (l ++ rest) i g0 r0 = scanGR rest (i + l.length) g0 r0 := by
  induction l with
  | nil => intro rest i g0 r0 _; simp
  | cons s l2 ih =>
    intro rest i g0 r0 h
    have hs := h s (List.mem_cons_self s l2)
    rw [List.cons_append, scanGR, if_neg (by simp [hs.1]), if_neg (by simp [hs.2])]
    rw [ih rest (i + 1) g0 r0 (fun x hx => h x (List.mem_cons_of_mem s hx))]
    simp only [List.length_cons]
    rw [Nat.add_comm l2.length 1, ← Nat.add_assoc]

theorem scanGR_g_none (cs : List Node) :
    ∀ (i : Nat) g0 r0, (∀ s ∈ cs, s.name ≠ "Gross income tax withholding") →
      (scanGR cs i g0 r0).1 = g0 := by
  induction cs with
  | nil => intro i g0 r0 _; rfl
  | cons s l2 ih =>
    intro i g0 r0 h
    have hs := h s (List.mem_cons_self s l2)
    rw [scanGR, if_neg (by simp [hs])]
    split
    · exact ih (i + 1) g0 _ (fun x hx => h x (List.mem_cons_of_mem s hx))
    · exact ih (i + 1) g0 r0 (fun x hx => h x (List.mem_cons_of_mem s hx))

theorem scanGR_r_none (cs : List Node) :
    ∀ (i : Nat) g0 r0, (∀ s ∈ cs, s.name ≠ "Individuals refunds") →
      (scanGR cs i g0 r0).2 = r0 := by
  induction cs with
  | nil => intro i g0 r0 _; rfl
  | cons s l2 ih =>
    intro i g0 r0 h
    have hs := h s (List.mem_cons_self s l2)
    rw [scanGR]
    split
    · exact ih (i + 1) _ r0 (fun x hx => h x (List.mem_cons_of_mem s hx))
    · rw [if_neg (by simp [hs])]
      exact ih (i + 1) g0 r0 (fun x hx => h x (List.mem_cons_of_mem s hx))

theorem combineKids_eq_map (years : List String) (cs : List Node) :
    combineKids years cs = cs.map (combineNetIncomeTax years) := by
  induction cs with
  | nil => rfl
  | cons c rest ih => simp [combineKids, ih]

/-- Decomposition of the stepOne rewrite: a withholding-taxes child whose
children split (in order) into pre, gross, mid, refunds, post with no other
specially-named sibling. -/
theorem stepOne_match (years : List String) (c : Node) (pre : List Node) (g : Node)
    (mid : List Node) (r : Node) (post : List Node)
    (hname : c.name = "Individuals and other withholding taxes")
    (hkids : c.children = pre ++ (g :: (mid ++ (r :: post))))
    (hg : g.name = "Gross income tax withholding")
    (hr : r.name = "Individuals refunds")
    (hothers : ∀ s, s ∈ pre ∨ s ∈ mid ∨ s ∈ post →
      s.name ≠ "Gross income tax withholding" ∧ s.name ≠ "Individuals refunds") :
    stepOne years c = c.withChildren (pre ++ mid ++ post ++
      [Node.mk "Net income tax" none
        (some (years.map (fun y => (y, bGetD g y + bGetD r y)))) [] 0 0]) := by
  cases c with
  | mk cn cu cb cs ci cind =>
    simp only [Node.name] at hname
    subst hname
    simp only [Node.children] at hkids
    subst hkids
    have hscan : scanGR (pre ++ (g :: (mid ++ (r :: post)))) 0 none none =
        (some (pre.length, g), some (pre.length + 1 + mid.length, r)) := by
      rw [scanGR_skip pre _ 0 none none (fun s hs => hothers s (Or.inl hs))]
      rw [Nat.zero_add]
      rw [scanGR, if_pos (by rw [hg]; rfl)]
      rw [scanGR_skip mid _ _ _ _ (fun s hs => hothers s (Or.inr (Or.inl hs)))]
      rw [scanGR, if_neg (by rw [hr]; decide), if_pos (by rw [hr]; rfl)]
      have hend := scanGR_skip post [] (pre.length + 1 + mid.length + 1)
        (some (pre.length, g)) (some (pre.length + 1 + mid.length, r))
        (fun s hs => hothers s (Or.inr (Or.inr hs)))
      rw [List.append_nil] at hend
      rw [hend]
      rfl
    have hfilter : ((idxed 0 (pre ++ (g :: (mid ++ (r :: post))))).filter
          (fun p => p.1 != pre.length && p.1 != (pre.length + 1 + mid.length))).map
          Prod.snd = pre ++ mid ++ post := by
      have hpre : ∀ p ∈ idxed 0 pre,
          (p.1 != pre.length && p.1 != (pre.length + 1 + mid.length)) = true := by
        intro p hp
        have hb := idxed_mem_bounds hp
        simp only [Bool.and_eq_true, bne_iff_ne, ne_eq]
        omega
      have hmid : ∀ p ∈ idxed (pre.length + 1) mid,
          (p.1 != pre.length && p.1 != (pre.length + 1 + mid.length)) = true := by
        intro p hp
        have hb := idxed_mem_bounds hp
        simp only [Bool.and_eq_true, bne_iff_ne, ne_eq]
        omega
      have hpost : ∀ p ∈ idxed (pre.length + 1 + mid.length + 1) post,
          (p.1 != pre.length && p.1 != (pre.length + 1 + mid.length)) = true := by
        intro p hp
        have hb := idxed_mem_bounds hp
        simp only [Bool.and_eq_true, bne_iff_ne, ne_eq]
        omega
      rw [idxed_append, Nat.zero_add]
      rw [show idxed pre.length (g :: (mid ++ (r :: post))) =
        (pre.length, g) :: idxed (pre.length + 1) (mid ++ (r :: post)) from rfl]
      rw [idxed_append]
      rw [show idxed (pre.length + 1 + mid.length) (r :: post) =
        (pre.length + 1 + mid.length, r) ::
          idxed (pre.length + 1 + mid.length + 1) post from rfl]
      rw [List.filter_append, List.filter_cons]
      rw [if_neg (by simp)]
      rw [List.filter_append, List.filter_cons]
      rw [if_neg (by simp)]
      rw [List.filter_eq_self.mpr hpre, List.filter_eq_self.mpr hmid,
        List.filter_eq_self.mpr hpost]
      rw [List.map_append, List.map_append, idxed_map_snd, idxed_map_snd, idxed_map_snd]
      rw [List.append_assoc]
    rw [stepOne]
    rw [if_pos (by simp [Node.name, Node.children])]
    simp only [Node.children] at hscan hfilter ⊢
    rw [hscan]
    simp only []
    rw [hfilter]
    simp only [Node.withChildren, netNode]

/-- No-match case of the rewrite: without both specially-named children the
node is left unchanged. -/
theorem stepOne_skip (years : List String) (c : Node)
    (h : (∀ s ∈ c.children, s.name ≠ "Gross income tax withholding") ∨
      (∀ s ∈ c.children, s.name ≠ "Individuals refunds")) :
    stepOne years c = c := by
  rw [stepOne]
  by_cases hcond :
      (c.name == "Individuals and other withholding taxes" && !c.children.isEmpty) = true
  · rw [if_pos hcond]
    rcases hs : scanGR c.children 0 none none with ⟨gg, rr⟩
    rcases h with h | h
    · have h1 := scanGR_g_none c.children 0 none none h
      rw [hs] at h1
      simp only at h1
      subst h1
      cases rr <;> rfl
    · have h1 := scanGR_r_none c.children 0 none none h
      rw [hs] at h1
      simp only at h1
      subst h1
      cases gg <;> rfl
  · rw [if_neg hcond]

/-- C5 example input: the match sits one level below the root, with two other
siblings around the special pair. -/
def exampleC5 : Node :=
  Node.mk "Revenue" none none
    [Node.mk "Individuals and other withholding taxes" (some "$m") none
      [Node.mk "Other A" (some "$m") (some [("2024-25", 7)]) [] 0 0,
       Node.mk "Gross income tax withholding" (some "$m") (some [("2024-25", 1000)]) [] 0 0,
       Node.mk "Other B" (some "$m") (some [("2024-25", 9)]) [] 0 0,
       Node.mk "Individuals refunds" (some "$m") (some [("2024-25", -150)]) [] 0 0] 0 0] 0 0

/-- C5 example output: gross and refunds replaced by the net node appended at
the end; the other siblings keep their order. -/
def expectedC5 : Node :=
  Node.mk "Revenue" none none
    [Node.mk "Individuals and other withholding taxes" (some "$m") none
      [Node.mk "Other A" (some "$m") (some [("2024-25", 7)]) [] 0 0,
       Node.mk "Other B" (some "$m") (some [("2024-25", 9)]) [] 0 0,
       Node.mk "Net income tax" none (some [("2024-25", 850)]) [] 0 0] 0 0] 0 0

/-- C5: the combinator recurses into children first and then rewrites each
child (first conjunct, the unfolding); a child named "Individuals and other
withholding taxes" whose children split as pre, gross, mid, refunds, post
with no other specially-named sibling loses those two children, keeps pre,
mid and post in order, and gains at the end a leaf "Net income tax" whose
budget for each supplied year is gross + refunds with missing values read as
0 (second conjunct); when either special name is absent among the children
the rewrite leaves the child unchanged (third conjunct); and the spec example
gross 1000, refunds -150 yields 850 with sibling order kept (fourth
conjunct). -/
theorem C5_net_income_tax :
    (∀ years nm u b cs i ind, combineNetIncomeTax years (Node.mk nm u b cs i ind) =
        Node.mk nm u b ((combineKids years cs).map (stepOne years)) i ind) ∧
    (∀ years c pre g mid r post,
        c.name = "Individuals and other withholding taxes" →
        c.children = pre ++ (g :: (mid ++ (r :: post))) →
        g.name = "Gross income tax withholding" →
        r.name = "Individuals refunds" →
        (∀ s, s ∈ pre ∨ s ∈ mid ∨ s ∈ post →
          s.name ≠ "Gross income tax withholding" ∧ s.name ≠ "Individuals refunds") →
        stepOne years c = c.withChildren (pre ++ mid ++ post ++
          [Node.mk "Net income tax" none
            (some (years.map (fun y => (y, bGetD g y + bGetD r y)))) [] 0 0])) ∧
    (∀ years c, ((∀ s ∈ c.children, s.name ≠ "Gross income tax withholding") ∨
        (∀ s ∈ c.children, s.name ≠ "Individuals refunds")) →
        stepOne years c = c) ∧
    combineNetIncomeTax ["2024-25"] exampleC5 = expectedC5 := by
  refine ⟨fun years nm u b cs i ind => rfl,
    fun years c pre g mid r post => stepOne_match years c pre g mid r post,
    stepOne_skip, ?_⟩
  have hx := stepOne_match ["2024-25"]
    (Node.mk "Individuals and other withholding taxes" (some "$m") none
      [Node.mk "Other A" (some "$m") (some [("2024-25", 7)]) [] 0 0,
       Node.mk "Gross income tax withholding" (some "$m") (some [("2024-25", 1000)]) [] 0 0,
       Node.mk "Other B" (some "$m") (some [("2024-25", 9)]) [] 0 0,
       Node.mk "Individuals refunds" (some "$m") (some [("2024-25", -150)]) [] 0 0] 0 0)
    [Node.mk "Other A" (some "$m") (some [("2024-25", 7)]) [] 0 0]
    (Node.mk "Gross income tax withholding" (some "$m") (some [("2024-25", 1000)]) [] 0 0)
    [Node.mk "Other B" (some "$m") (some [("2024-25", 9)]) [] 0 0]
    (Node.mk "Individuals refunds" (some "$m") (some [("2024-25", -150)]) [] 0 0)
    [] rfl rfl rfl rfl
    (by rintro s (hs | hs | hs)
        · simp only [List.mem_singleton] at hs
          subst hs
          exact ⟨by decide, by decide⟩
        · simp only [List.mem_singleton] at hs
          subst hs
          exact ⟨by decide, by decide⟩
        · exact absurd hs (List.not_mem_nil s))
  show combineNetIncomeTax ["2024-25"] exampleC5 = expectedC5
  rw [exampleC5, expectedC5]
  simp only [combineNetIncomeTax, combineKids, List.map]
  rw [show stepOne ["2024-25"]
    (Node.mk "Other A" (some "$m") (some [("2024-25", 7)]) [] 0 0) =
    Node.mk "Other A" (some "$m") (some [("2024-25", 7)]) [] 0 0 from rfl]
  rw [show stepOne ["2024-25"]
    (Node.mk "Gross income tax withholding" (some "$m") (some [("2024-25", 1000)]) [] 0 0) =
    Node.mk "Gross income tax withholding" (some "$m") (some [("2024-25", 1000)]) [] 0 0 from rfl]
  rw [show stepOne ["2024-25"]
    (Node.mk "Other B" (some "$m") (some [("2024-25", 9)]) [] 0 0) =
    Node.mk "Other B" (some "$m") (some [("2024-25", 9)]) [] 0 0 from rfl]
  rw [show stepOne ["2024-25"]
    (Node.mk "Individuals refunds" (some "$m") (some [("2024-25", -150)]) [] 0 0) =
    Node.mk "Individuals refunds" (some "$m") (some [("2024-25", -150)]) [] 0 0 from rfl]
  rw [hx]
  simp only [Node.withChildren, List.map, bGetD, bLookup, Node.budget, Option.getD,
    List.find?, List.cons_append, List.nil_append, List.singleton_append]
  norm_num

/-- C5 witness: the decomposition conjunct applied to the example's special
child. -/
theorem C5_witness :
    stepOne ["2024-25"]
        (Node.mk "Individuals and other withholding taxes" (some "$m") none
          [Node.mk "Other A" (some "$m") (some [("2024-25", 7)]) [] 0 0,
           Node.mk "Gross income tax withholding" (some "$m") (some [("2024-25", 1000)]) [] 0 0,
           Node.mk "Other B" (some "$m") (some [("2024-25", 9)]) [] 0 0,
           Node.mk "Individuals refunds" (some "$m") (some [("2024-25", -150)]) [] 0 0] 0 0) =
      (Node.mk "Individuals and other withholding taxes" (some "$m") none
          [Node.mk "Other A" (some "$m") (some [("2024-25", 7)]) [] 0 0,
           Node.mk "Gross income tax withholding" (some "$m") (some [("2024-25", 1000)]) [] 0 0,
           Node.mk "Other B" (some "$m") (some [("2024-25", 9)]) [] 0 0,
           Node.mk "Individuals refunds" (some "$m") (some [("2024-25", -150)]) [] 0 0] 0 0).withChildren
        ([Node.mk "Other A" (some "$m") (some [("2024-25", 7)]) [] 0 0] ++
          [Node.mk "Other B" (some "$m") (some [("2024-25", 9)]) [] 0 0] ++ [] ++
          [Node.mk "Net income tax" none
            (some (["2024-25"].map (fun y =>
              (y, bGetD (Node.mk "Gross income tax withholding" (some "$m")
                    (some [("2024-25", 1000)]) [] 0 0) y +
                  bGetD (Node.mk "Individuals refunds" (some "$m")
                    (some [("2024-25", -150)]) [] 0 0) y)))) [] 0 0]) :=
  C5_net_income_tax.2.1 ["2024-25"] _
    [Node.mk "Other A" (some "$m") (some [("2024-25", 7)]) [] 0 0]
    (Node.mk "Gross income tax withholding" (some "$m") (some [("2024-25", 1000)]) [] 0 0)
    [Node.mk "Other B" (some "$m") (some [("2024-25", 9)]) [] 0 0]
    (Node.mk "Individuals refunds" (some "$m") (some [("2024-25", -150)]) [] 0 0)
    [] rfl rfl rfl rfl
    (by rintro s (hs | hs | hs)
        · simp only [List.mem_singleton] at hs
          subst hs
          exact ⟨by decide, by decide⟩
        · simp only [List.mem_singleton] at hs
          subst hs
          exact ⟨by decide, by decide⟩
        · exact absurd hs (List.not_mem_nil s))

/-! ## C8: unit scale normalization -/

theorem dictInsert_mem {m : List (String × ℚ)} {k : String} {v : ℚ} {p : String × ℚ}
    (h : p ∈ dictInsert m k v) : p ∈ m ∨ p = (k, v) := by
  rw [dictInsert] at h
  split at h
  · rw [List.mem_map] at h
    obtain ⟨p0, hp0, hfp⟩ := h
    by_cases hk : (p0.1 == k) = true
    · rw [if_pos hk] at hfp
      exact Or.inr hfp.symm
    · rw [if_neg hk] at hfp
      exact Or.inl (hfp ▸ hp0)
  · rcases List.mem_append.mp h with h2 | h2
    · exact Or.inl h2
    · exact Or.inr (List.mem_singleton.mp h2)

theorem budgetStep_mem {cells : List CellVal} {mult : ℚ} {m : List (String × ℚ)}
    {iy : Nat × String} {p : String × ℚ} (h : p ∈ budgetStep cells mult m iy) :
    p ∈ m ∨ ∃ q, pyFloat (cells.getD iy.1 .empty) = some q ∧ p = (iy.2, q * mult) := by
  rw [budgetStep] at h
  split at h
  · exact Or.inl h
  · split at h
    · rename_i q hq
      rcases dictInsert_mem h with h2 | h2
      · exact Or.inl h2
      · exact Or.inr ⟨q, hq, h2⟩
    · exact Or.inl h

theorem budgetFold_mem {cells : List CellVal} {mult : ℚ} :
    ∀ (zl : List (Nat × String)) (m : List (String × ℚ)) (p : String × ℚ),
      p ∈ zl.foldl (budgetStep cells mult) m →
      p ∈ m ∨ ∃ iy ∈ zl, ∃ q, pyFloat (cells.getD iy.1 .empty) = some q ∧
        p = (iy.2, q * mult) := by
  intro zl
  induction zl with
  | nil => intro m p h; exact Or.inl h
  | cons iy rest ih =>
    intro m p h
    rw [List.foldl_cons] at h
    rcases ih _ p h with h2 | ⟨iy2, hiy2, q, hq, hp⟩
    · rcases budgetStep_mem h2 with h3 | ⟨q, hq, hp⟩
      · exact Or.inl h3
      · exact Or.inr ⟨iy, List.mem_cons_self iy rest, q, hq, hp⟩
    · exact Or.inr ⟨iy2, List.mem_cons_of_mem iy hiy2, q, hq, hp⟩

/-- C8: the multiplier table resolves $t, $b, $m, $k to 10^12, 10^9, 10^6,
10^3 and anything else to 1 (first conjunct); every entry of a row's budgets
dict is a coercible year-cell value times the row's multiplier, keyed by the
year paired with that column — non-coercible and missing cells contribute
nothing (second conjunct); a $b row with raw value 2 stores 2000000000 and a
row with unrecognized unit and raw value 5 stores 5 (third and fourth
conjuncts); and a row whose only year cell cannot be coerced gets an empty
budgets dict, so its node carries no "budget" key at all (fifth conjunct). -/
theorem C8_unit_scaling :
    (∀ u : String, multOf u =
      if u = "$t" then (1000000000000 : ℚ) else if u = "$b" then 1000000000
      else if u = "$m" then 1000000 else if u = "$k" then 1000 else 1) ∧
    (∀ (cols : List Nat) (years : List String) (cells : List CellVal) (mult : ℚ)
        (p : String × ℚ), p ∈ mkBudgets cols years cells mult →
        ∃ iy ∈ cols.zip years, ∃ q, pyFloat (cells.getD iy.1 .empty) = some q ∧
          p = (iy.2, q * mult)) ∧
    mkBudgets [2] ["2024-25"] [.str "Item", .str "$b", .num 2] (multOf "$b") =
      [("2024-25", 2000000000)] ∧
    mkBudgets [2] ["2024-25"] [.str "Item", .str "widgets", .num 5] (multOf "widgets") =
      [("2024-25", 5)] ∧
    rowEntry ["2024-25"] [2] ⟨[.str "Item", .str "$m", .str "n/a"], 0⟩ =
      some ⟨"Item", "$m", 0, []⟩ ∧
    (rowNode 0 ⟨"Item", "$m", 0, []⟩).budget = none := by
  refine ⟨?_, ?_, ?_, ?_, ?_, ?_⟩
  · intro u
    by_cases h1 : u = "$t"
    · subst h1; rfl
    · by_cases h2 : u = "$b"
      · subst h2; rfl
      · by_cases h3 : u = "$m"
        · subst h3; rfl
        · by_cases h4 : u = "$k"
          · subst h4; rfl
          · rw [if_neg h1, if_neg h2, if_neg h3, if_neg h4]
            have hempty : unitMultipliers.find? (fun p => p.1 == u) = none := by
              rw [List.find?_eq_none]
              intro x hx
              simp only [unitMultipliers, List.mem_cons, List.mem_singleton] at hx
              rcases hx with rfl | rfl | rfl | rfl | h
              · simp; exact fun h => absurd h.symm h1
              · simp; exact fun h => absurd h.symm h3
              · simp; exact fun h => absurd h.symm h2
              · simp; exact fun h => absurd h.symm h4
              · exact absurd h (List.not_mem_nil x)
            rw [multOf, hempty]
            rfl
  · intro cols years cells mult p h
    rw [mkBudgets] at h
    rcases budgetFold_mem _ [] p h with h2 | h2
    · simp at h2
    · exact h2
  · rw [show mkBudgets [2] ["2024-25"] [.str "Item", .str "$b", .num 2] (multOf "$b") =
      [("2024-25", 2 * 1000000000)] from rfl]
    simp only [List.cons.injEq, Prod.mk.injEq]
    norm_num
  · rw [show mkBudgets [2] ["2024-25"] [.str "Item", .str "widgets", .num 5]
      (multOf "widgets") = [("2024-25", 5 * 1)] from rfl]
    simp only [List.cons.injEq, Prod.mk.injEq]
    norm_num
  · rfl
  · rfl

/-- C8 witness: the membership conjunct applied to the stored $b entry. -/
theorem C8_witness :
    ∃ iy ∈ ([2] : List Nat).zip ["2024-25"], ∃ q : ℚ,
      pyFloat (([CellVal.str "Item", CellVal.str "$b", CellVal.num 2]).getD iy.1 .empty) =
        some q ∧
      (("2024-25", (2000000000 : ℚ)) : String × ℚ) = (iy.2, q * multOf "$b") :=
  C8_unit_scaling.2.1 [2] ["2024-25"] [CellVal.str "Item", CellVal.str "$b", CellVal.num 2]
    (multOf "$b") ("2024-25", 2000000000)
    (by rw [C8_unit_scaling.2.2.1]; exact List.mem_singleton.mpr rfl)

/-! ## C6: year-column assignment -/

theorem find?_map_pres {α : Type} (f : α → α) (pred : α → Bool) :
    ∀ l : List α, (∀ a ∈ l, pred (f a) = pred a ∧ (pred a = true → f a = a)) →
      (l.map f).find? pred = l.find? pred := by
  intro l
  induction l with
  | nil => intro _; rfl
  | cons a rest ih =>
    intro h
    have ha := h a (List.mem_cons_self a rest)
    rw [List.map_cons, List.find?, List.find?]
    cases hp : pred a with
    | true =>
      rw [ha.2 hp, hp]
    | false =>
      rw [show pred (f a) = false from hp ▸ ha.1]
      exact ih (fun x hx => h x (List.mem_cons_of_mem a hx))

theorem find?_append_none {α : Type} (pred : α → Bool) :
    ∀ (l1 l2 : List α), l1.find? pred = none → (l1 ++ l2).find? pred = l2.find? pred := by
  intro l1
  induction l1 with
  | nil => intro l2 _; rfl
  | cons a rest ih =>
    intro l2 h
    rw [List.find?] at h
    rw [List.cons_append, List.find?]
    cases hp : pred a with
    | true => rw [hp] at h; simp at h
    | false =>
      rw [hp] at h
      exact ih l2 h

theorem find?_append_some {α : Type} (pred : α → Bool) :
    ∀ (l1 l2 : List α) (x : α), l1.find? pred = some x → (l1 ++ l2).find? pred = some x := by
  intro l1
  induction l1 with
  | nil => intro l2 x h; simp [List.find?] at h
  | cons a rest ih =>
    intro l2 x h
    rw [List.find?] at h
    rw [List.cons_append, List.find?]
    cases hp : pred a with
    | true => rw [hp] at h; rw [h]
    | false =>
      rw [hp] at h
      exact ih l2 x h

theorem bLookup_eq_none_of_keys {m : List (String × ℚ)} {y : String}
    (h : ∀ p ∈ m, p.1 ≠ y) : bLookup m y = none := by
  rw [bLookup, List.find?_eq_none.mpr (fun x hx => by simp [h x hx])]
  rfl

theorem bLookup_dictInsert_self (m : List (String × ℚ)) (k : String) (v : ℚ) :
    bLookup (dictInsert m k v) k = some v := by
  rw [dictInsert]
  split
  · rename_i hany
    rw [bLookup]
    have hfind : (m.map (fun p => if p.1 == k then (k, v) else p)).find?
        (fun p => p.1 == k) = some (k, v) := by
      obtain ⟨p0, hp0m, hp0⟩ := List.any_eq_true.mp hany
      clear hany
      induction m with
      | nil => exact absurd hp0m (List.not_mem_nil p0)
      | cons a rest ih =>
        rw [List.map_cons, List.find?]
        by_cases ha : (a.1 == k) = true
        · rw [if_pos ha]
          simp
        · rw [if_neg ha]
          have ha2 : (a.1 == k) = false := by simpa using ha
          rw [ha2]
          rcases List.mem_cons.mp hp0m with rfl | h2
          · exact absurd hp0 ha
          · exact ih h2
    rw [hfind]
    rfl
  · rw [bLookup, find?_append_none _ m _ ?h1]
    case h1 =>
      rename_i hany
      rw [List.find?_eq_none]
      intro x hx
      intro hxk
      exact hany (List.any_eq_true.mpr ⟨x, hx, hxk⟩)
    simp [List.find?]

theorem bLookup_dictInsert_ne {y k : String} (hne : y ≠ k) (m : List (String × ℚ)) (v : ℚ) :
    bLookup (dictInsert m k v) y = bLookup m y := by
  rw [dictInsert]
  split
  · rw [bLookup, bLookup]
    rw [find?_map_pres _ _ m ?hpres]
    case hpres =>
      intro a _
      constructor
      · by_cases ha : (a.1 == k) = true
        · rw [if_pos ha]
          have h1 : (k == y) = false := beq_eq_false_iff_ne.mpr (Ne.symm hne)
          have h2 : (a.1 == y) = false := by
            rw [beq_iff_eq] at ha
            rw [ha]
            exact h1
          rw [h1, h2]
        · rw [if_neg ha]
      · intro hay
        by_cases ha : (a.1 == k) = true
        · rw [beq_iff_eq] at ha hay
          exact absurd (ha ▸ hay : (k : String) = y).symm hne
        · rw [if_neg ha]
  · rw [bLookup, bLookup]
    rcases hm : m.find? (fun p => p.1 == y) with _ | p
    · rw [find?_append_none _ m _ hm]
      rw [show (([((k, v) : String × ℚ)]).find? (fun p => p.1 == y)) = none from ?hk]
      case hk =>
        rw [List.find?_eq_none]
        intro x hx
        rw [List.mem_singleton] at hx
        subst hx
        exact fun hc => hne (beq_iff_eq.mp hc).symm
      rw [hm]
    · rw [find?_append_some _ m _ p hm, hm]

theorem bLookup_budgetStep_ne {cells : List CellVal} {mult : ℚ} {y : String}
    {iy : Nat × String} (hne : y ≠ iy.2) (m : List (String × ℚ)) :
    bLookup (budgetStep cells mult m iy) y = bLookup m y := by
  rw [budgetStep]
  split
  · rfl
  · split
    · exact bLookup_dictInsert_ne hne m _
    · rfl

theorem bLookup_budgetFold_skip {cells : List CellVal} {mult : ℚ} {y : String} :
    ∀ (zl : List (Nat × String)) (m : List (String × ℚ)),
      (∀ iy ∈ zl, y ≠ iy.2) →
      bLookup (zl.foldl (budgetStep cells mult) m) y = bLookup m y := by
  intro zl
  induction zl with
  | nil => intro m _; rfl
  | cons iy rest ih =>
    intro m h
    rw [List.foldl_cons, ih _ (fun x hx => h x (List.mem_cons_of_mem iy hx))]
    exact bLookup_budgetStep_ne (h iy (List.mem_cons_self iy rest)) m

theorem mkBudgets_posLookup {cells : List CellVal} {mult : ℚ} :
    ∀ (cols : List Nat) (years : List String) (i : Nat) (m : List (String × ℚ)),
      years.Nodup → (∀ y ∈ years, bLookup m y = none) →
      ∀ (hi : i < cols.length) (hy : i < years.length),
      bLookup ((cols.zip years).foldl (budgetStep cells mult) m) (years.get ⟨i, hy⟩) =
        (if cells.getD (cols.get ⟨i, hi⟩) .empty = .empty then none
         else (pyFloat (cells.getD (cols.get ⟨i, hi⟩) .empty)).map (fun q => q * mult)) := by
  intro cols
  induction cols with
  | nil => intro years i m _ _ hi; exact absurd hi (by simp)
  | cons c cs ih =>
    intro years i m hnd hnone hi hy
    cases years with
    | nil => exact absurd hy (by simp)
    | cons y ys =>
      rw [List.zip_cons_cons, List.foldl_cons]
      cases i with
      | zero =>
        have hskip : ∀ iy ∈ cs.zip ys, y ≠ iy.2 := by
          intro iy hiy
          have h2 := (List.of_mem_zip hiy).2
          have hy2 := (List.nodup_cons.mp hnd).1
          exact fun he => hy2 (he ▸ h2)
        have hget : (y :: ys).get ⟨0, hy⟩ = y := rfl
        have hgetc : (c :: cs).get ⟨0, hi⟩ = c := rfl
        rw [hget, hgetc, bLookup_budgetFold_skip _ _ hskip]
        simp only [budgetStep]
        split
        · exact hnone y (List.mem_cons_self y ys)
        · rcases hq : pyFloat (cells.getD c .empty) with _ | q
          · exact hnone y (List.mem_cons_self y ys)
          · exact bLookup_dictInsert_self m y (q * mult)
      | succ i2 =>
        have hi2 : i2 < cs.length := by simpa using hi
        have hy2 : i2 < ys.length := by simpa using hy
        have hget : (y :: ys).get ⟨i2 + 1, hy⟩ = ys.get ⟨i2, hy2⟩ := rfl
        have hgetc : (c :: cs).get ⟨i2 + 1, hi⟩ = cs.get ⟨i2, hi2⟩ := rfl
        rw [hget, hgetc]
        refine ih ys i2 _ (List.nodup_cons.mp hnd).2 ?_ hi2 hy2
        intro y2 hy2m
        have hne : y2 ≠ y := by
          intro he
          exact (List.nodup_cons.mp hnd).1 (he ▸ hy2m)
        rw [bLookup_budgetStep_ne hne m]
        exact hnone y2 (List.mem_cons_of_mem y hy2m)

/-- The stripped string form of a header cell ("" when the cell is falsy). -/
def headerSval (v : CellVal) : String :=
  if pyTruthy v then pyStrip (pyStr v) else ""

theorem yearColsAux_cons (years : List String) (j : Nat) (v : CellVal) (vs : List CellVal) :
    yearColsAux years j (v :: vs) =
      if years.contains (headerSval v) then j :: yearColsAux years (j + 1) vs
      else yearColsAux years (j + 1) vs := rfl

theorem yearColsAux_ge (years : List String) :
    ∀ (l : List CellVal) (j : Nat), ∀ e ∈ yearColsAux years j l, j ≤ e := by
  intro l
  induction l with
  | nil => intro j e he; simp [yearColsAux] at he
  | cons v vs ih =>
    intro j e he
    rw [yearColsAux_cons] at he
    split at he
    · rcases List.mem_cons.mp he with rfl | h2
      · exact le_rfl
      · exact Nat.le_of_succ_le (ih (j + 1) e h2)
    · exact Nat.le_of_succ_le (ih (j + 1) e he)

theorem yearColsAux_pairwise (years : List String) :
    ∀ (l : List CellVal) (j : Nat), List.Pairwise (· < ·) (yearColsAux years j l) := by
  intro l
  induction l with
  | nil => intro j; simp [yearColsAux]
  | cons v vs ih =>
    intro j
    rw [yearColsAux_cons]
    split
    · exact List.Pairwise.cons
        (fun e he => yearColsAux_ge years vs (j + 1) e he) (ih (j + 1))
    · exact ih (j + 1)

theorem yearColsAux_mem (years : List String) :
    ∀ (l : List CellVal) (j i : Nat), i ∈ yearColsAux years j l →
      ∃ d, i = j + d ∧ ∃ hd : d < l.length,
        years.contains (headerSval (l.get ⟨d, hd⟩)) = true := by
  intro l
  induction l with
  | nil => intro j i hi; simp [yearColsAux] at hi
  | cons v vs ih =>
    intro j i hi
    rw [yearColsAux_cons] at hi
    split at hi
    · rename_i hc
      rcases List.mem_cons.mp hi with rfl | h2
      · exact ⟨0, by omega, by simp, hc⟩
      · obtain ⟨d, hd1, hd2, hd3⟩ := ih (j + 1) i h2
        exact ⟨d + 1, by omega, by simpa using hd2, hd3⟩
    · obtain ⟨d, hd1, hd2, hd3⟩ := ih (j + 1) i hi
      exact ⟨d + 1, by omega, by simpa using hd2, hd3⟩

/-- C6 counterexample sheet: the year columns appear in the sheet in the
order 2025-26, 2024-25 while the supplied years list is sorted ascending. -/
def sheetC6 : List SheetRow :=
  [⟨[.str "Item", .str "Unit", .str "2025-26", .str "2024-25", .str "2023-24",
     .str "2022-23", .str "2021-22"], 0⟩,
   ⟨[.str "Health", .str "$m", .num 7, .num 9], 0⟩]

def yearsC6 : List String := ["2024-25", "2025-26"]

/-- C6 counterexample: the Health row stores 7 * 10^6 under "2024-25", but
the (unique) column whose trimmed header equals "2024-25" is column 3, whose
cell holds 9 — reading the value from the equally-headed column, as the claim
states, would store 9 * 10^6.  The matched columns [2, 3] are zipped with the
years list positionally, so column 2 (headed "2025-26") feeds "2024-25". -/
theorem C6_counterexample :
    ((buildFromSheet sheetC6 yearsC6).map (fun root =>
        (root.children.getD 1 root).budget.map (fun m => bLookup m "2024-25"))) =
      some (some (some (7 * 1000000))) ∧
    headerSval ((sheetC6.getD 0 ⟨[], 0⟩).cells.getD 3 .empty) = "2024-25" ∧
    (sheetC6.getD 1 ⟨[], 0⟩).cells.getD 3 .empty = .num 9 ∧
    (7 * 1000000 : ℚ) ≠ 9 * 1000000 := by
  refine ⟨rfl, rfl, rfl, by norm_num⟩

/-- C6 (amended): the indices of the matched columns are exactly those whose
header cell, stringified and trimmed (or "" when falsy), is in the years
list, collected in increasing column order (first and second conjuncts);
values are assigned positionally — with distinct year labels, the i-th year
label receives the value of the i-th matched column, coerced and scaled, or
no entry when that cell is missing or non-coercible (third conjunct); and a
label not in the years list never receives an entry (fourth conjunct).  The
stored label equals its column's own header only when the matched columns'
headers appear in the same order as the years list. -/
theorem C6_year_column_assignment :
    (∀ headers years, List.Pairwise (· < ·) (yearCols headers years)) ∧
    (∀ headers years i, i ∈ yearCols headers years →
      ∃ h2 : i < headers.length,
        years.contains (headerSval (headers.get ⟨i, h2⟩)) = true) ∧
    (∀ (cols : List Nat) (years : List String) (cells : List CellVal) (mult : ℚ) (i : Nat)
        (hi : i < cols.length) (hy : i < years.length), years.Nodup →
        bLookup (mkBudgets cols years cells mult) (years.get ⟨i, hy⟩) =
          (if cells.getD (cols.get ⟨i, hi⟩) .empty = .empty then none
           else (pyFloat (cells.getD (cols.get ⟨i, hi⟩) .empty)).map (fun q => q * mult))) ∧
    (∀ (cols : List Nat) (years : List String) (cells : List CellVal) (mult : ℚ)
        (y : String), y ∉ years → bLookup (mkBudgets cols years cells mult) y = none) := by
  refine ⟨?_, ?_, ?_, ?_⟩
  · intro headers years
    exact yearColsAux_pairwise years headers 0
  · intro headers years i hi
    obtain ⟨d, hd1, hd2, hd3⟩ := yearColsAux_mem years headers 0 i hi
    have hid : i = d := by omega
    subst hid
    exact ⟨hd2, hd3⟩
  · intro cols years cells mult i hi hy hnd
    exact mkBudgets_posLookup cols years i [] hnd (fun y _ => rfl) hi hy
  · intro cols years cells mult y hy
    refine bLookup_eq_none_of_keys ?_
    intro p hp
    rw [mkBudgets] at hp
    rcases budgetFold_mem _ [] p hp with h | ⟨iy, hiy, q, hq, hpe⟩
    · exact absurd h (List.not_mem_nil p)
    · subst hpe
      exact fun he => hy (he ▸ (List.of_mem_zip hiy).2)

/-- C6 witness: the positional-assignment conjunct at the counterexample's
Health row — year label "2024-25" (position 0) reads column 2. -/
theorem C6_witness :
    bLookup (mkBudgets [2, 3] ["2024-25", "2025-26"]
        [CellVal.str "Health", CellVal.str "$m", CellVal.num 7, CellVal.num 9]
        (multOf "$m"))
      (["2024-25", "2025-26"].get ⟨0, by decide⟩) =
      (if ([CellVal.str "Health", CellVal.str "$m", CellVal.num 7,
            CellVal.num 9]).getD (([2, 3] : List Nat).get ⟨0, by decide⟩) .empty = .empty
       then none
       else (pyFloat (([CellVal.str "Health", CellVal.str "$m", CellVal.num 7,
            CellVal.num 9]).getD (([2, 3] : List Nat).get ⟨0, by decide⟩) .empty)).map
          (fun q => q * multOf "$m")) :=
  C6_year_column_assignment.2.2.1 [2, 3] ["2024-25", "2025-26"]
    [CellVal.str "Health", CellVal.str "$m", CellVal.num 7, CellVal.num 9]
    (multOf "$m") 0 (by decide) (by decide) (by decide)

/-! ## C7: header-row location and failure -/

theorem findHeaderAux_none_iff (p : SheetRow → Bool) :
    ∀ (l : List SheetRow) (i : Nat),
      findHeaderAux p i l = none ↔ ∀ r ∈ l, p r = false := by
  intro l
  induction l with
  | nil => intro i; simp [findHeaderAux]
  | cons r rest ih =>
    intro i
    rw [findHeaderAux]
    by_cases hr : p r = true
    · rw [if_pos hr]
      simp [hr]
    · rw [if_neg hr]
      rw [ih (i + 1)]
      simp only [List.mem_cons]
      constructor
      · intro h x hx
        rcases hx with rfl | hx2
        · exact Bool.not_eq_true _ ▸ hr
        · exact h x hx2
      · intro h x hx
        exact h x (Or.inr hx)

theorem findHeaderAux_some (p : SheetRow → Bool) :
    ∀ (l : List SheetRow) (i j : Nat), findHeaderAux p i l = some j →
      ∃ d, j = i + d ∧ ∃ hd : d < l.length, p (l.get ⟨d, hd⟩) = true ∧
        ∀ k (hk : k < l.length), k < d → p (l.get ⟨k, hk⟩) = false := by
  intro l
  induction l with
  | nil => intro i j h; simp [findHeaderAux] at h
  | cons r rest ih =>
    intro i j h
    rw [findHeaderAux] at h
    by_cases hr : p r = true
    · rw [if_pos hr] at h
      have hij := Option.some.inj h
      refine ⟨0, by omega, by simp, hr, ?_⟩
      intro k hk hk0
      omega
    · rw [if_neg hr] at h
      obtain ⟨d, hd1, hd2, hd3, hd4⟩ := ih (i + 1) j h
      refine ⟨d + 1, by omega, by simpa using hd2, hd3, ?_⟩
      intro k hk hkd
      cases k with
      | zero => exact Bool.not_eq_true _ ▸ hr
      | succ k2 =>
        exact hd4 k2 (by simpa using hk) (by omega)

/-- Year pattern from the wording of C7: either a plain 4-digit year, or a
4-digit number joined by a hyphen to a 2-to-4-digit number. -/
def claimedC7YearPat (s : String) : Bool :=
  (decide (s.data.length = 4) && s.data.all Char.isDigit) || yearPatChars s.data

/-- C7 counterexample: a sheet whose first row has four plain 4-digit year
cells.  Under the claimed pattern the row has 4 > 3 matching cells, so build
should select it as header; the code's pattern requires a hyphen, matches
none of them, and build fails with no tree. -/
theorem C7_counterexample :
    ((([⟨[.str "2021", .str "2022", .str "2023", .str "2024"], 0⟩] :
        List SheetRow).take 20).any (fun r =>
          decide (3 < r.cells.countP (fun v =>
            pyTruthy v && claimedC7YearPat (pyStrip (pyStr v)))))) = true ∧
    buildFromSheet [⟨[.str "2021", .str "2022", .str "2023", .str "2024"], 0⟩]
      ["2024-25"] = none := by
  exact ⟨by decide, rfl⟩

/-- C7 (amended): a header-candidate cell must match ^\d{4}-\d{2,4}$ — the
hyphenated form only; plain 4-digit years do not match (first conjunct, shown
on "2024-25" and "2024").  build returns nothing exactly when no row among
the first 20 has more than 3 matching cells (second conjunct); when the scan
finds index j, it is the first qualifying row among the first 20 (third
conjunct); and a found header always yields a tree (fourth conjunct). -/
theorem C7_header_location :
    (yearPatChars "2024-25".data = true ∧ yearPatChars "2024".data = false) ∧
    (∀ (sheet : List SheetRow) (years : List String),
      buildFromSheet sheet years = none ↔ ∀ r ∈ sheet.take 20, isHeaderRowB r = false) ∧
    (∀ (sheet : List SheetRow) (j : Nat), findHeaderIdx sheet = some j →
      ∃ hj : j < (sheet.take 20).length,
        isHeaderRowB ((sheet.take 20).get ⟨j, hj⟩) = true ∧
        ∀ k (hk : k < (sheet.take 20).length), k < j →
          isHeaderRowB ((sheet.take 20).get ⟨k, hk⟩) = false) ∧
    (∀ (sheet : List SheetRow) (years : List String) (j : Nat),
      findHeaderIdx sheet = some j → (buildFromSheet sheet years).isSome = true) := by
  refine ⟨⟨by decide, by decide⟩, ?_, ?_, ?_⟩
  · intro sheet years
    rw [buildFromSheet]
    rcases hf : findHeaderIdx sheet with _ | j
    · rw [findHeaderIdx] at hf
      simp only []
      rw [← findHeaderAux_none_iff isHeaderRowB (sheet.take 20) 0, hf]
      simp
    · rw [findHeaderIdx] at hf
      simp only []
      constructor
      · intro h
        simp at h
      · intro h
        rw [(findHeaderAux_none_iff isHeaderRowB (sheet.take 20) 0).mpr h] at hf
        simp at hf
  · intro sheet j hf
    rw [findHeaderIdx] at hf
    obtain ⟨d, hd1, hd2, hd3, hd4⟩ := findHeaderAux_some isHeaderRowB (sheet.take 20) 0 j hf
    have hjd : j = d := by omega
    subst hjd
    exact ⟨hd2, hd3, fun k hk hkj => hd4 k hk hkj⟩
  · intro sheet years j hf
    rw [buildFromSheet, hf]
    rfl

/-- C7 witness: the first-qualifying-row conjunct at a two-row sheet whose
second row is the header. -/
theorem C7_witness :
    ∃ hj : 1 < (([⟨[.str "Notes"], 0⟩,
        ⟨[.str "A", .str "B", .str "2021-22", .str "2022-23", .str "2023-24",
          .str "2024-25"], 0⟩] : List SheetRow).take 20).length,
      isHeaderRowB ((([⟨[.str "Notes"], 0⟩,
        ⟨[.str "A", .str "B", .str "2021-22", .str "2022-23", .str "2023-24",
          .str "2024-25"], 0⟩] : List SheetRow).take 20).get ⟨1, hj⟩) = true ∧
      ∀ k (hk : k < (([⟨[.str "Notes"], 0⟩,
          ⟨[.str "A", .str "B", .str "2021-22", .str "2022-23", .str "2023-24",
            .str "2024-25"], 0⟩] : List SheetRow).take 20).length), k < 1 →
        isHeaderRowB ((([⟨[.str "Notes"], 0⟩,
          ⟨[.str "A", .str "B", .str "2021-22", .str "2022-23", .str "2023-24",
            .str "2024-25"], 0⟩] : List SheetRow).take 20).get ⟨k, hk⟩) = false :=
  C7_header_location.2.2.1
    [⟨[.str "Notes"], 0⟩,
     ⟨[.str "A", .str "B", .str "2021-22", .str "2022-23", .str "2023-24",
       .str "2024-25"], 0⟩] 1 (by decide)

/-! ## C10: the header row is the first data row -/

theorem appendChild_name (p c : Node) : (appendChild p c).name = p.name := by
  cases p
  rfl

/-- Name of the node at the bottom of the builder's stack. -/
def bottomName : BStack → Option String
  | [] => none
  | [(_, n)] => some n.name
  | _ :: rest => bottomName rest

theorem bottomName_cons_cons (a b : Nat × Node) (rest : BStack) :
    bottomName (a :: b :: rest) = bottomName (b :: rest) := rfl

theorem bottomName_head_name (j : Nat) (p p2 : Node) (rest : BStack)
    (h : p2.name = p.name) :
    bottomName ((j, p2) :: rest) = bottomName ((j, p) :: rest) := by
  cases rest with
  | nil => simp [bottomName, h]
  | cons b rest2 => rfl

/-- The first kept row's node stays first: its name is carried by the stack's
bottom node while the accumulator is empty, and by the accumulator's head
afterwards. -/
def firstNameInv (N : String) (st : BStack) (acc : List Node) : Prop :=
  (acc = [] ∧ bottomName st = some N) ∨ acc.head?.map Node.name = some N

theorem popCascade_zero_stack :
    ∀ (rest : BStack) (pending : Node) (acc : List Node),
      (popCascade 0 pending rest acc).1 = [] := by
  intro rest
  induction rest with
  | nil => intro pending acc; rfl
  | cons e rest2 ih =>
    intro pending acc
    rcases e with ⟨j, p⟩
    rw [popCascade, if_pos (Nat.zero_le j)]
    exact ih _ acc

theorem popCascade_firstName (N : String) :
    ∀ (rest : BStack) (i ind : Nat) (pending : Node) (acc : List Node),
      firstNameInv N ((i, pending) :: rest) acc →
      firstNameInv N (popCascade ind pending rest acc).1 (popCascade ind pending rest acc).2 := by
  intro rest
  induction rest with
  | nil =>
    intro i ind pending acc h
    rw [popCascade]
    rcases h with ⟨hacc, hbot⟩ | hhd
    · subst hacc
      exact Or.inr (by simpa [bottomName] using hbot)
    · right
      cases acc with
      | nil => simp at hhd
      | cons a rest2 => simpa using hhd
  | cons e rest2 ih =>
    intro i ind pending acc h
    rcases e with ⟨j, p⟩
    have h2 : firstNameInv N ((j, appendChild p pending) :: rest2) acc := by
      rcases h with ⟨hacc, hbot⟩ | hhd
      · refine Or.inl ⟨hacc, ?_⟩
        rw [bottomName_head_name j p _ rest2 (appendChild_name p pending)]
        rw [← bottomName_cons_cons (i, pending) (j, p) rest2]
        exact hbot
      · exact Or.inr hhd
    rw [popCascade]
    split
    · exact ih j ind (appendChild p pending) acc h2
    · exact h2

theorem popAttach_firstName (N : String) (st : BStack) (acc : List Node) (ind : Nat)
    (h : firstNameInv N st acc) :
    firstNameInv N (popAttach ind st acc).1 (popAttach ind st acc).2 := by
  cases st with
  | nil => exact h
  | cons e rest =>
    rcases e with ⟨i, n⟩
    rw [popAttach]
    split
    · exact popCascade_firstName N rest i ind n acc h
    · exact h

theorem stepRow_firstName (N : String) (st : BStack) (acc : List Node)
    (e : Nat × RowData) (h : firstNameInv N st acc) :
    firstNameInv N (stepRow (st, acc) e).1 (stepRow (st, acc) e).2 := by
  have h2 := popAttach_firstName N st acc e.2.indent h
  rw [stepRow]
  rcases h2 with ⟨hacc, hbot⟩ | hhd
  · left
    refine ⟨hacc, ?_⟩
    rcases hst : (popAttach e.2.indent st acc).1 with _ | ⟨b, rest2⟩
    · rw [hst] at hbot
      simp [bottomName] at hbot
    · rw [hst] at hbot
      rw [show bottomName ((e.2.indent, rowNode e.1 e.2) :: b :: rest2) =
        bottomName (b :: rest2) from rfl]
      exact hbot
  · exact Or.inr hhd

theorem foldl_firstName (N : String) :
    ∀ (entries : List (Nat × RowData)) (st : BStack) (acc : List Node),
      firstNameInv N st acc →
      firstNameInv N (entries.foldl stepRow (st, acc)).1 (entries.foldl stepRow (st, acc)).2 := by
  intro entries
  induction entries with
  | nil => intro st acc h; exact h
  | cons e rest ih =>
    intro st acc h
    rw [List.foldl_cons]
    have h2 := stepRow_firstName N st acc e h
    rcases hs : stepRow (st, acc) e with ⟨st2, acc2⟩
    rw [hs] at h2
    exact ih st2 acc2 h2

theorem collapse_firstName (N : String) (st : BStack) (acc : List Node)
    (h : firstNameInv N st acc) :
    (collapse st acc).head?.map Node.name = some N := by
  cases st with
  | nil =>
    rcases h with ⟨-, hbot⟩ | hhd
    · simp [bottomName] at hbot
    · exact hhd
  | cons e rest =>
    rcases e with ⟨i, n⟩
    rw [collapse]
    have h2 := popCascade_firstName N rest i 0 n acc h
    rcases h2 with ⟨-, hbot⟩ | hhd
    · rw [popCascade_zero_stack rest n acc] at hbot
      simp [bottomName] at hbot
    · exact hhd

theorem drop_cons_getD {α : Type} (d : α) :
    ∀ (l : List α) (i : Nat), i < l.length → l.drop i = l.getD i d :: l.drop (i + 1) := by
  intro l
  induction l with
  | nil => intro i h; simp at h
  | cons x xs ih =>
    intro i h
    cases i with
    | zero => rfl
    | succ i2 =>
      have h2 : i2 < xs.length := by simpa using h
      simpa [List.getD] using ih i2 h2

/-- C10: data-row iteration starts at the header row itself (min_row =
header_row_idx + 1 in 1-based openpyxl coordinates).  If the header row's
first cell is non-empty, does not stringify to a "nan"-prefixed name, and the
row is not excluded, the header row becomes a node — and, being the first
kept row, the first child of the synthetic root. -/
theorem C10_header_row_becomes_node :
    ∀ (sheet : List SheetRow) (years : List String) (h : Nat),
      findHeaderIdx sheet = some h →
      (sheet.getD h ⟨[], 0⟩).cells.getD 0 .empty ≠ .empty →
      pyStartsWith (pyLower (pyStrip (pyStr
        ((sheet.getD h ⟨[], 0⟩).cells.getD 0 .empty)))) "nan" = false →
      shouldExclude (pyStrip (pyStr ((sheet.getD h ⟨[], 0⟩).cells.getD 0 .empty)))
        (some (if pyTruthy ((sheet.getD h ⟨[], 0⟩).cells.getD 1 .empty)
               then pyStrip (pyStr ((sheet.getD h ⟨[], 0⟩).cells.getD 1 .empty))
               else "$m")) = false →
      ∃ root, buildFromSheet sheet years = some root ∧
        root.children.head?.map Node.name =
          some (pyStrip (pyStr ((sheet.getD h ⟨[], 0⟩).cells.getD 0 .empty))) := by
  intro sheet years h hf hv hnan hexc
  have hf2 := hf
  rw [findHeaderIdx] at hf2
  obtain ⟨d, hd1, hd2, -, -⟩ := findHeaderAux_some isHeaderRowB (sheet.take 20) 0 h hf2
  have hlen : h < sheet.length := by
    have h20 := List.length_take 20 sheet
    omega
  have hre : ∃ e : RowData,
      rowEntry years (yearCols (sheet.getD h ⟨[], 0⟩).cells years) (sheet.getD h ⟨[], 0⟩) =
        some e ∧
      e.name = pyStrip (pyStr ((sheet.getD h ⟨[], 0⟩).cells.getD 0 .empty)) := by
    rw [rowEntry]
    rw [if_neg hv, if_neg (by simp only [hnan]; exact Bool.false_ne_true),
      if_neg (by simp only [hexc]; exact Bool.false_ne_true)]
    exact ⟨_, rfl, rfl⟩
  obtain ⟨e0, he0, hname0⟩ := hre
  simp only [buildFromSheet, hf]
  refine ⟨_, rfl, ?_⟩
  simp only [Node.children]
  rw [dataEntries, drop_cons_getD ⟨[], 0⟩ sheet h hlen]
  rw [show idxed 0 ((sheet.getD h ⟨[], 0⟩) :: sheet.drop (h + 1)) =
    (0, sheet.getD h ⟨[], 0⟩) :: idxed 1 (sheet.drop (h + 1)) from rfl]
  rw [List.filterMap_cons]
  simp only [he0, Option.map_some']
  rw [List.foldl_cons]
  rw [show stepRow ([], []) (0, e0) = ([(e0.indent, rowNode 0 e0)], []) from rfl]
  have hinv : firstNameInv (rowNode 0 e0).name [(e0.indent, rowNode 0 e0)] [] :=
    Or.inl ⟨rfl, rfl⟩
  have h3 := foldl_firstName (rowNode 0 e0).name
    ((idxed 1 (sheet.drop (h + 1))).filterMap
      (fun p => (rowEntry years (yearCols (sheet.getD h ⟨[], 0⟩).cells years) p.2).map
        (fun e => (p.1, e))))
    [(e0.indent, rowNode 0 e0)] [] hinv
  rcases hsa : (((idxed 1 (sheet.drop (h + 1))).filterMap
      (fun p => (rowEntry years (yearCols (sheet.getD h ⟨[], 0⟩).cells years) p.2).map
        (fun e => (p.1, e)))).foldl stepRow ([(e0.indent, rowNode 0 e0)], []))
    with ⟨st2, acc2⟩
  rw [hsa] at h3
  rw [hsa]
  have h4 := collapse_firstName (rowNode 0 e0).name st2 acc2 h3
  rw [show (rowNode 0 e0).name = e0.name from rfl, hname0] at h4
  exact h4

/-- C10 witness sheet: the header row carries a usable first cell. -/
def sheetC10 : List SheetRow :=
  [⟨[.str "Expenses", .str "$m", .str "2024-25", .str "2023-24", .str "2022-23",
     .str "2021-22"], 0⟩,
   ⟨[.str "Health", .str "$m"], 1⟩]

/-- C10 witness: the header row of sheetC10 becomes the first node. -/
theorem C10_witness :
    ∃ root, buildFromSheet sheetC10 ["2024-25"] = some root ∧
      root.children.head?.map Node.name =
        some (pyStrip (pyStr ((sheetC10.getD 0 ⟨[], 0⟩).cells.getD 0 .empty))) :=
  C10_header_row_becomes_node sheetC10 ["2024-25"] 0 (by rfl) (by decide) (by decide)
    (by decide)

/-! ## C2: tree-shape invariant of the builder -/

theorem appendChild_indentG (p c : Node) : (appendChild p c).indentG = p.indentG := by
  cases p
  rfl

theorem appendChild_srcIdx (p c : Node) : (appendChild p c).srcIdx = p.srcIdx := by
  cases p
  rfl

theorem appendChild_children (p c : Node) :
    (appendChild p c).children = p.children ++ [c] := by
  cases p
  rfl

theorem subLtB_mk_iff (nm : String) (u : Option String) (b : Option (List (String × ℚ)))
    (cs : List Node) (i ind k : Nat) :
    subLtB (Node.mk nm u b cs i ind) k = true ↔ i < k ∧ ∀ c ∈ cs, subLtB c k = true := by
  simp [subLtB, subKidsLtB_iff]

theorem shapeOk_mk_iff (nm : String) (u : Option String) (b : Option (List (String × ℚ)))
    (cs : List Node) (i ind : Nat) :
    shapeOk (Node.mk nm u b cs i ind) = true ↔
      (∀ c ∈ cs, ind < c.indentG ∧ shapeOk c = true) ∧
        chainLt Node.srcIdx cs = true := by
  simp [shapeOk, shapeKids_iff]

theorem subLtB_mono : ∀ n : Node, ∀ k m : Nat, subLtB n k = true → k ≤ m →
    subLtB n m = true := by
  refine nodeStrongInd (fun n => ∀ k m, subLtB n k = true → k ≤ m → subLtB n m = true) ?_
  intro nm u b cs i ind ih k m h hkm
  rw [subLtB_mk_iff] at h ⊢
  exact ⟨by omega, fun c hc => ih c hc k m (h.2 c hc) hkm⟩

theorem subLtB_children {n : Node} {k : Nat} (h : subLtB n k = true) :
    ∀ c ∈ n.children, subLtB c k = true := by
  cases n with
  | mk nm u b cs i ind =>
    rw [subLtB_mk_iff] at h
    simpa [Node.children] using h.2

theorem subLtB_append {p c : Node} {k : Nat} (hp : subLtB p k = true)
    (hc : subLtB c k = true) : subLtB (appendChild p c) k = true := by
  cases p with
  | mk nm u b cs i ind =>
    rw [show appendChild (Node.mk nm u b cs i ind) c =
      Node.mk nm u b (cs ++ [c]) i ind from rfl]
    rw [subLtB_mk_iff] at hp ⊢
    refine ⟨hp.1, ?_⟩
    intro x hx
    rcases List.mem_append.mp hx with h2 | h2
    · exact hp.2 x h2
    · rw [List.mem_singleton] at h2
      subst h2
      exact hc

theorem chainLt_append_last (f : Node → Nat) :
    ∀ (l : List Node) (x : Node), chainLt f l = true → (∀ a ∈ l, f a < f x) →
      chainLt f (l ++ [x]) = true := by
  intro l
  induction l with
  | nil => intro x _ _; rfl
  | cons a rest ih =>
    intro x hc hlt
    cases rest with
    | nil =>
      rw [show ([a] ++ [x] : List Node) = [a, x] from rfl]
      rw [show chainLt f [a, x] = (decide (f a < f x) && chainLt f [x]) from rfl]
      rw [show chainLt f [x] = true from rfl]
      simp [hlt a (List.mem_cons_self a [])]
    | cons b rest2 =>
      rw [show (a :: b :: rest2) ++ [x] = a :: ((b :: rest2) ++ [x]) from rfl]
      rw [show (b :: rest2) ++ [x] = b :: (rest2 ++ [x]) from rfl]
      rw [show chainLt f (a :: b :: (rest2 ++ [x])) =
        (decide (f a < f b) && chainLt f (b :: (rest2 ++ [x]))) from rfl]
      rw [show chainLt f (a :: b :: rest2) =
        (decide (f a < f b) && chainLt f (b :: rest2)) from rfl] at hc
      rw [Bool.and_eq_true] at hc ⊢
      refine ⟨hc.1, ?_⟩
      rw [show (b :: (rest2 ++ [x]) : List Node) = (b :: rest2) ++ [x] from rfl]
      exact ih x hc.2 (fun y hy => hlt y (List.mem_cons_of_mem a hy))

theorem shapeOk_append {p c : Node} (hp : shapeOk p = true) (hc : shapeOk c = true)
    (hind : p.indentG < c.indentG) (hidx : ∀ a ∈ p.children, a.srcIdx < c.srcIdx) :
    shapeOk (appendChild p c) = true := by
  cases p with
  | mk nm u b cs i ind =>
    simp only [Node.indentG] at hind
    simp only [Node.children] at hidx
    rw [show appendChild (Node.mk nm u b cs i ind) c =
      Node.mk nm u b (cs ++ [c]) i ind from rfl]
    rw [shapeOk_mk_iff] at hp ⊢
    refine ⟨?_, chainLt_append_last _ cs c hp.2 hidx⟩
    intro x hx
    rcases List.mem_append.mp hx with h2 | h2
    · exact hp.1 x h2
    · rw [List.mem_singleton] at h2
      subst h2
      exact ⟨hind, hc⟩

/-- Index of the bottom stack entry's node, or the bound when the stack is
empty: everything in the root accumulator sits strictly below it. -/
def stkBase : BStack → Nat → Nat
  | [], k => k
  | [(_, n)], _ => n.srcIdx
  | _ :: rest, k => stkBase rest k

/-- Invariant of the builder's fold state: stack indents strictly decrease
towards the bottom, each stack node records its entry's indent and is
well-shaped, all ghost indices are below the bound k, each entry's subtree
indices lie strictly below the index of the entry above it, and the
accumulated root children are well-shaped, ordered, and below the bottom
entry's index. -/
structure BInv (st : BStack) (acc : List Node) (k : Nat) : Prop where
  ind : List.Chain' (fun a b : Nat × Node => b.1 < a.1) st
  gh : ∀ e ∈ st, (e.2).indentG = e.1
  shp : ∀ e ∈ st, shapeOk e.2 = true
  bnd : ∀ e ∈ st, subLtB e.2 k = true
  sep : List.Chain' (fun a b : Nat × Node => subLtB b.2 (a.2).srcIdx = true) st
  accSep : ∀ a ∈ acc, subLtB a (stkBase st k) = true
  accChain : chainLt Node.srcIdx acc = true
  accShp : ∀ a ∈ acc, shapeOk a = true

theorem stkBase_cons_cons (a b : Nat × Node) (rest : BStack) (k : Nat) :
    stkBase (a :: b :: rest) k = stkBase (b :: rest) k := rfl

theorem stkBase_bound_irrel : ∀ (l : BStack) (b : Nat × Node) (k1 k2 : Nat),
    stkBase (b :: l) k1 = stkBase (b :: l) k2 := by
  intro l
  induction l with
  | nil => intro b k1 k2; rfl
  | cons c l2 ih =>
    intro b k1 k2
    rw [stkBase_cons_cons, stkBase_cons_cons]
    exact ih c k1 k2

theorem stkBase_head_congr (j : Nat) (p p2 : Node) (rest : BStack) (k : Nat)
    (h : p2.srcIdx = p.srcIdx) :
    stkBase ((j, p2) :: rest) k = stkBase ((j, p) :: rest) k := by
  cases rest with
  | nil => simpa [stkBase] using h
  | cons b rest2 => rfl

theorem attachTop {i j : Nat} {f p : Node} {rest : BStack} {acc : List Node} {k : Nat}
    (h : BInv ((i, f) :: (j, p) :: rest) acc k) :
    BInv ((j, appendChild p f) :: rest) acc k := by
  obtain ⟨hind, hgh, hshp, hbnd, hsep, haccSep, haccChain, haccShp⟩ := h
  rw [List.chain'_cons] at hind hsep
  have hji : j < i := hind.1
  have hsubpf : subLtB p f.srcIdx = true := hsep.1
  have hpi : p.indentG = j :=
    hgh (j, p) (List.mem_cons_of_mem _ (List.mem_cons_self _ _))
  have hfi : f.indentG = i := hgh (i, f) (List.mem_cons_self _ _)
  have hshpP : shapeOk p = true :=
    hshp (j, p) (List.mem_cons_of_mem _ (List.mem_cons_self _ _))
  have hshpF : shapeOk f = true := hshp (i, f) (List.mem_cons_self _ _)
  have hshpNew : shapeOk (appendChild p f) = true := by
    refine shapeOk_append hshpP hshpF (by rw [hpi, hfi]; exact hji) ?_
    intro a ha
    exact subLtB_srcIdx (subLtB_children hsubpf a ha)
  refine ⟨?_, ?_, ?_, ?_, ?_, ?_, haccChain, haccShp⟩
  · cases rest with
    | nil => simp
    | cons d rest2 =>
      have h2 := hind.2
      rw [List.chain'_cons] at h2 ⊢
      exact h2
  · intro e he
    rcases List.mem_cons.mp he with rfl | h2
    · rw [appendChild_indentG]
      exact hpi
    · exact hgh e (List.mem_cons_of_mem _ (List.mem_cons_of_mem _ h2))
  · intro e he
    rcases List.mem_cons.mp he with rfl | h2
    · exact hshpNew
    · exact hshp e (List.mem_cons_of_mem _ (List.mem_cons_of_mem _ h2))
  · intro e he
    rcases List.mem_cons.mp he with rfl | h2
    · exact subLtB_append
        (hbnd (j, p) (List.mem_cons_of_mem _ (List.mem_cons_self _ _)))
        (hbnd (i, f) (List.mem_cons_self _ _))
    · exact hbnd e (List.mem_cons_of_mem _ (List.mem_cons_of_mem _ h2))
  · cases rest with
    | nil => simp
    | cons d rest2 =>
      have h2 := hsep.2
      rw [List.chain'_cons] at h2 ⊢
      refine ⟨?_, h2.2⟩
      rw [appendChild_srcIdx]
      exact h2.1
  · intro a ha
    have h2 := haccSep a ha
    rw [stkBase_cons_cons] at h2
    rw [stkBase_head_congr j p (appendChild p f) rest k (appendChild_srcIdx p f)]
    exact h2

theorem attachRoot {i : Nat} {n : Node} {acc : List Node} {k : Nat}
    (h : BInv [(i, n)] acc k) : BInv [] (acc ++ [n]) k := by
  obtain ⟨-, -, hshp, hbnd, -, haccSep, haccChain, haccShp⟩ := h
  have hnk : subLtB n k = true := hbnd (i, n) (List.mem_cons_self _ _)
  have hbase : stkBase [(i, n)] k = n.srcIdx := rfl
  refine ⟨List.chain'_nil, by simp, by simp, by simp, List.chain'_nil, ?_, ?_, ?_⟩
  · intro a ha
    rcases List.mem_append.mp ha with h2 | h2
    · have h3 := haccSep a h2
      rw [hbase] at h3
      exact subLtB_mono a n.srcIdx k h3 (Nat.le_of_lt (subLtB_srcIdx hnk))
    · rw [List.mem_singleton] at h2
      rw [h2]
      exact hnk
  · refine chainLt_append_last _ acc n haccChain ?_
    intro a ha
    have h3 := haccSep a ha
    rw [hbase] at h3
    exact subLtB_srcIdx h3
  · intro a ha
    rcases List.mem_append.mp ha with h2 | h2
    · exact haccShp a h2
    · rw [List.mem_singleton] at h2
      rw [h2]
      exact hshp (i, n) (List.mem_cons_self _ _)

/-- No entry of the stack has indent ≥ ind at the top. -/
def topLt (st : BStack) (ind : Nat) : Prop :=
  ∀ e ∈ st.head?, e.1 < ind

theorem cascadeInv :
    ∀ (rest : BStack) (i ind : Nat) (n : Node) (acc : List Node) (k : Nat),
      BInv ((i, n) :: rest) acc k → ind ≤ i →
      BInv (popCascade ind n rest acc).1 (popCascade ind n rest acc).2 k ∧
      topLt (popCascade ind n rest acc).1 ind := by
  intro rest
  induction rest with
  | nil =>
    intro i ind n acc k h _
    rw [popCascade]
    exact ⟨attachRoot h, by intro e he; simp at he⟩
  | cons e2 rest2 ih =>
    intro i ind n acc k h hle
    rcases e2 with ⟨j, p⟩
    have h2 := attachTop h
    rw [popCascade]
    split
    · rename_i hlej
      exact ih j ind (appendChild p n) acc k h2 hlej
    · rename_i hnle
      refine ⟨h2, ?_⟩
      intro e he
      simp only [List.head?, Option.mem_def, Option.some.injEq] at he
      subst he
      omega

theorem popAttachInv {st : BStack} {acc : List Node} {k : Nat} (ind : Nat)
    (h : BInv st acc k) :
    BInv (popAttach ind st acc).1 (popAttach ind st acc).2 k ∧
      topLt (popAttach ind st acc).1 ind := by
  cases st with
  | nil => exact ⟨h, by intro e he; simp [popAttach] at he⟩
  | cons e rest =>
    rcases e with ⟨i, n⟩
    rw [popAttach]
    split
    · rename_i hle
      exact cascadeInv rest i ind n acc k h hle
    · rename_i hnle
      refine ⟨h, ?_⟩
      intro e2 he2
      simp only [List.head?, Option.mem_def, Option.some.injEq] at he2
      subst he2
      omega

theorem stepInv {st : BStack} {acc : List Node} {k j : Nat} {r : RowData}
    (h : BInv st acc k) (hkj : k ≤ j) :
    BInv (stepRow (st, acc) (j, r)).1 (stepRow (st, acc) (j, r)).2 (j + 1) := by
  have hpa := popAttachInv r.indent h
  rw [stepRow]
  rcases hres : popAttach r.indent st acc with ⟨st1, acc1⟩
  rw [hres] at hpa
  obtain ⟨⟨hind, hgh, hshp, hbnd, hsep, haccSep, haccChain, haccShp⟩, htop⟩ := hpa
  have hndIdx : (rowNode j r).srcIdx = j := rfl
  have hndInd : (rowNode j r).indentG = r.indent := rfl
  have hndShape : shapeOk (rowNode j r) = true := by
    rw [rowNode]
    split <;> rfl
  have hndSub : subLtB (rowNode j r) (j + 1) = true := by
    rw [rowNode]
    split <;> simp [subLtB_mk_iff]
  refine ⟨?_, ?_, ?_, ?_, ?_, ?_, haccChain, haccShp⟩
  · cases st1 with
    | nil => simp
    | cons b rest2 =>
      rw [List.chain'_cons]
      exact ⟨htop b rfl, hind⟩
  · intro e he
    rcases List.mem_cons.mp he with rfl | h2
    · exact hndInd
    · exact hgh e h2
  · intro e he
    rcases List.mem_cons.mp he with rfl | h2
    · exact hndShape
    · exact hshp e h2
  · intro e he
    rcases List.mem_cons.mp he with rfl | h2
    · exact hndSub
    · exact subLtB_mono _ k (j + 1) (hbnd e h2) (by omega)
  · cases st1 with
    | nil => simp
    | cons b rest2 =>
      rw [List.chain'_cons]
      refine ⟨?_, hsep⟩
      rw [hndIdx]
      exact subLtB_mono _ k j (hbnd b (List.mem_cons_self _ _)) hkj
  · intro a ha
    cases st1 with
    | nil =>
      have h2 := haccSep a ha
      exact subLtB_mono a k _ h2 hkj
    | cons b rest2 =>
      have h2 := haccSep a ha
      rw [stkBase_cons_cons]
      rw [stkBase_bound_irrel rest2 b (j + 1) k]
      exact h2

/-- Lower bound on the strictly increasing row indices of the kept entries. -/
def entriesLB : List (Nat × RowData) → Nat → Prop
  | [], _ => True
  | e :: rest, k => k ≤ e.1 ∧ entriesLB rest (e.1 + 1)

theorem entriesLB_mono : ∀ (l : List (Nat × RowData)) (k k2 : Nat),
    entriesLB l k2 → k ≤ k2 → entriesLB l k := by
  intro l
  induction l with
  | nil => intro k k2 _ _; trivial
  | cons e rest ih =>
    intro k k2 h hk
    exact ⟨le_trans hk h.1, h.2⟩

theorem foldInv : ∀ (entries : List (Nat × RowData)) (st : BStack) (acc : List Node)
    (k : Nat), BInv st acc k → entriesLB entries k →
    ∃ k2, BInv (entries.foldl stepRow (st, acc)).1 (entries.foldl stepRow (st, acc)).2 k2 := by
  intro entries
  induction entries with
  | nil => intro st acc k h _; exact ⟨k, h⟩
  | cons e rest ih =>
    intro st acc k h hlb
    rcases e with ⟨j, r⟩
    rw [List.foldl_cons]
    have h2 := @stepInv st acc k j r h hlb.1
    rcases hs : stepRow (st, acc) (j, r) with ⟨st2, acc2⟩
    rw [hs] at h2
    exact ih st2 acc2 (j + 1) h2 hlb.2

theorem collapseInv {st : BStack} {acc : List Node} {k : Nat} (h : BInv st acc k) :
    chainLt Node.srcIdx (collapse st acc) = true ∧
      ∀ a ∈ collapse st acc, shapeOk a = true := by
  cases st with
  | nil => exact ⟨h.accChain, h.accShp⟩
  | cons e rest =>
    rcases e with ⟨i, n⟩
    rw [collapse]
    have h2 := (cascadeInv rest i 0 n acc k h (Nat.zero_le i)).1
    exact ⟨h2.accChain, h2.accShp⟩

theorem binit : BInv [] [] 0 := by
  refine ⟨List.chain'_nil, by simp, by simp, by simp, List.chain'_nil, by simp, rfl, by simp⟩

theorem dataEntriesAuxLB (years : List String) (cols : List Nat) :
    ∀ (rows : List SheetRow) (i : Nat),
      entriesLB ((idxed i rows).filterMap
        (fun p => (rowEntry years cols p.2).map (fun e => (p.1, e)))) i := by
  intro rows
  induction rows with
  | nil => intro i; trivial
  | cons r rest ih =>
    intro i
    rw [show idxed i (r :: rest) = (i, r) :: idxed (i + 1) rest from rfl]
    rw [List.filterMap_cons]
    rcases he : rowEntry years cols r with _ | e
    · simp only [he, Option.map_none']
      exact entriesLB_mono _ i (i + 1) (ih (i + 1)) (by omega)
    · simp only [he, Option.map_some']
      exact ⟨le_rfl, ih (i + 1)⟩

/-- C2: in every tree the builder returns, each node's children carry
strictly greater indent-level ghosts than their parent and appear in strictly
increasing source-row order, recursively (shapeOk), and the root's children
are in source-row order as well. -/
theorem C2_tree_shape :
    ∀ (sheet : List SheetRow) (years : List String) (root : Node),
      buildFromSheet sheet years = some root →
      chainLt Node.srcIdx root.children = true ∧ root.children.all shapeOk = true := by
  intro sheet years root hb
  rcases hf : findHeaderIdx sheet with _ | h
  · rw [buildFromSheet, hf] at hb
    simp at hb
  · simp only [buildFromSheet, hf] at hb
    have hb2 := Option.some.inj hb
    rw [← hb2]
    simp only [Node.children]
    have hlb : entriesLB (dataEntries years
        (yearCols (sheet.getD h ⟨[], 0⟩).cells years) (sheet.drop h)) 0 :=
      dataEntriesAuxLB years (yearCols (sheet.getD h ⟨[], 0⟩).cells years) (sheet.drop h) 0
    obtain ⟨k2, hinv⟩ := foldInv _ [] [] 0 binit hlb
    have hcol := collapseInv hinv
    exact ⟨hcol.1, List.all_eq_true.mpr (fun x hx => hcol.2 x hx)⟩

/-- C2 witness sheet: a header row that itself becomes a node, then indents
1, 2, 1. -/
def sheetC2 : List SheetRow :=
  [⟨[.str "Base", .str "$m", .str "2024-25", .str "2023-24", .str "2022-23",
     .str "2021-22"], 0⟩,
   ⟨[.str "Health", .str "$m"], 1⟩,
   ⟨[.str "Hospitals", .str "$m"], 2⟩,
   ⟨[.str "Defence", .str "$m"], 1⟩]

/-- The tree built from sheetC2. -/
def rootC2 : Node :=
  Node.mk "Australian Government Budget" none none
    [Node.mk "Base" (some "$m") none
      [Node.mk "Health" (some "$m") none
        [Node.mk "Hospitals" (some "$m") none [] 2 2] 1 1,
       Node.mk "Defence" (some "$m") none [] 3 1] 0 0] 0 0

/-- C2 witness: the invariant evaluated on the concrete build of sheetC2. -/
theorem C2_witness :
    chainLt Node.srcIdx rootC2.children = true ∧ rootC2.children.all shapeOk = true :=
  C2_tree_shape sheetC2 ["2024-25"] rootC2 (by rfl)
